import Mathlib

/-!
Verification of the pLegal_Assist resilient evaluation pipeline.

This file gives a shallow embedding, in Lean 4, of the core logic of the
repository's Python source (`lambda_handlers.py`, `lambda_function.py`,
`eb1a_processor.py`, `kb_retriever.py`, `resume_analyzer.py`).  Text is
modelled as `List Char` and byte strings as `List Nat` (each element a
byte value).  External collaborators (the Bedrock retrieval / generation
services, the PDF text extractor, and the `re` regex library used by the
resume analyzer) are modelled as explicit function parameters; all
repository logic (multipart decoding, JSON extraction, citation
consolidation, fallback orchestration, score rating) is translated
directly from the source.
-/

set_option maxHeartbeats 1000000
set_option maxRecDepth 100000

namespace PLA

/-! ## Python-style string and list primitives -/

/-- Python `str.strip()` whitespace set (also used for `bytes.strip()`,
via byte codes). -/
def pyWs (c : Char) : Bool :=
  c = ' ' || c = '\t' || c = '\n' || c = '\r' || c = '\x0b' || c = '\x0c'

/-- Byte-level version of the Python whitespace set. -/
def pyWsB (b : Nat) : Bool :=
  b = 32 || b = 9 || b = 10 || b = 13 || b = 11 || b = 12

/-- Drop elements satisfying `p` from the end of a list. -/
def dropWhileEnd (p : α → Bool) (l : List α) : List α :=
  (l.reverse.dropWhile p).reverse

/-- Python `str.strip()` on text. -/
def pyStrip (l : List Char) : List Char :=
  dropWhileEnd pyWs (l.dropWhile pyWs)

/-- Python `bytes.strip()` on byte strings. -/
def pyStripB (l : List Nat) : List Nat :=
  dropWhileEnd pyWsB (l.dropWhile pyWsB)

/-- Membership test for the quote characters stripped by
Python's `strip("\x22'")` calls in the source. -/
def quoteChar (c : Char) : Bool :=
  c = '"' || c = Char.ofNat 39

/-- Python `str.strip("\x22'")`: strip double and single quotes from both
ends. -/
def stripQuotes (l : List Char) : List Char :=
  dropWhileEnd quoteChar (l.dropWhile quoteChar)

/-- Python `sub in s` substring containment. -/
def containsSub [DecidableEq α] (pat s : List α) : Bool :=
  s.tails.any (fun t => pat.isPrefixOf t)

/-- Worker for `splitOnSub`: Python `s.split(sep)` (leftmost,
non-overlapping matches); `acc` is the reversed current chunk. The fuel
argument (at least the input length) makes the recursion structural. -/
def splitOnSubGo [DecidableEq α] (pat : List α) : Nat → List α → List α → List (List α)
  | _, [], acc => [acc.reverse]
  | 0, s, acc => [acc.reverse ++ s]
  | fuel + 1, a :: s, acc =>
    if pat.isPrefixOf (a :: s) then
      acc.reverse :: splitOnSubGo pat fuel (s.drop (pat.length - 1)) []
    else
      splitOnSubGo pat fuel s (a :: acc)

/-- Python `s.split(sep)` for a non-empty separator. -/
def splitOnSub [DecidableEq α] (pat s : List α) : List (List α) :=
  splitOnSubGo pat s.length s []

/-- Worker for `splitFirstSub`. -/
def splitFirstSubGo [DecidableEq α] (pat : List α) : List α → List α → Option (List α × List α)
  | [], _ => none
  | a :: s, acc =>
    if pat.isPrefixOf (a :: s) then
      some (acc.reverse, s.drop (pat.length - 1))
    else
      splitFirstSubGo pat s (a :: acc)

/-- Python `s.split(sep, 1)`: `some (before, after)` at the first
occurrence of `sep`, `none` when `sep` does not occur (in which case the
source's tuple unpacking raises and the caller skips the part). -/
def splitFirstSub [DecidableEq α] (pat s : List α) : Option (List α × List α) :=
  splitFirstSubGo pat s []

/-- Python `s.find(c)` restricted to single-character needles; `none`
models the `-1` result. -/
def findIdx [DecidableEq α] (a : α) (l : List α) : Option Nat :=
  l.findIdx? (fun x => decide (x = a))

/-- Python `s.rfind(c)` restricted to single-character needles. -/
def rfindIdx [DecidableEq α] (a : α) (l : List α) : Option Nat :=
  (l.reverse.findIdx? (fun x => decide (x = a))).map (fun i => l.length - 1 - i)

/-- Python slice `l[i:j]` for `0 ≤ i, j` (clamping semantics). -/
def pySlice (l : List α) (i j : Nat) : List α :=
  (l.take j).drop i

/-- Python `str.lower()` (ASCII case folding suffices for the headers in
the source). -/
def pyLower (l : List Char) : List Char :=
  l.map Char.toLower

/-- Python `str.startswith(pat)`. -/
def startsWith [DecidableEq α] (pat s : List α) : Bool :=
  pat.isPrefixOf s

/-- Lookup in a Python dict built by repeated assignment: the last
assignment to a key wins. -/
def pyGetLast [DecidableEq κ] (d : List (κ × ν)) (k : κ) : Option ν :=
  ((d.filter (fun p => decide (p.1 = k))).getLast?).map (fun p => p.2)

instance [DecidableEq ε] [DecidableEq α] : DecidableEq (Except ε α) := fun x y =>
  match x, y with
  | .ok a, .ok b =>
    if h : a = b then isTrue (by rw [h])
    else isFalse (fun hh => by cases hh; exact h rfl)
  | .error a, .error b =>
    if h : a = b then isTrue (by rw [h])
    else isFalse (fun hh => by cases hh; exact h rfl)
  | .ok _, .error _ => isFalse (fun hh => by cases hh)
  | .error _, .ok _ => isFalse (fun hh => by cases hh)

/-! ## JSON syntax (the model of Python `json.loads`)

`jsonParse` is a recursive-descent parser for the JSON accepted by
Python's `json.loads` with default settings: strict strings (raw control
characters rejected), the strict number grammar, plus the `NaN`,
`Infinity` and `-Infinity` constants.  Numbers are kept as their lexemes
to stay independent of floating-point semantics; `\u` escapes map code
units through `Char.ofNat`.  The parser is fuel-indexed (fuel bounded by
the input length) to make it structurally total. -/

inductive JVal where
  | jnull : JVal
  | jbool : Bool → JVal
  | jnum : List Char → JVal
  | jstr : List Char → JVal
  | jarr : List JVal → JVal
  | jobj : List (List Char × JVal) → JVal

/-- JSON whitespace as accepted between tokens by `json.loads`. -/
def jsonWs (c : Char) : Bool :=
  c = ' ' || c = '\t' || c = '\n' || c = '\r'

/-- Skip JSON inter-token whitespace. -/
def skipWs (l : List Char) : List Char :=
  l.dropWhile jsonWs

/-- Hex digit value. -/
def hexVal (c : Char) : Option Nat :=
  if '0' ≤ c ∧ c ≤ '9' then some (c.toNat - '0'.toNat)
  else if 'a' ≤ c ∧ c ≤ 'f' then some (c.toNat - 'a'.toNat + 10)
  else if 'A' ≤ c ∧ c ≤ 'F' then some (c.toNat - 'A'.toNat + 10)
  else none

/-- Decimal digit test. -/
def isDigitCh (c : Char) : Bool :=
  '0' ≤ c && c ≤ '9'

/-- Parse the body of a JSON string literal (after the opening quote),
returning the decoded characters and the remaining input after the
closing quote. -/
def parseStringBody : Nat → List Char → Option (List Char × List Char)
  | 0, _ => none
  | _, [] => none
  | fuel + 1, c :: rest =>
    if c = '"' then
      some ([], rest)
    else if c = '\\' then
      match rest with
      | [] => none
      | e :: rest' =>
        let plain (ch : Char) : Option (List Char × List Char) :=
          (parseStringBody fuel rest').map (fun r => (ch :: r.1, r.2))
        if e = '"' then plain '"'
        else if e = '\\' then plain '\\'
        else if e = '/' then plain '/'
        else if e = 'b' then plain '\x08'
        else if e = 'f' then plain '\x0c'
        else if e = 'n' then plain '\n'
        else if e = 'r' then plain '\r'
        else if e = 't' then plain '\t'
        else if e = 'u' then
          match rest' with
          | h1 :: h2 :: h3 :: h4 :: rest'' =>
            match hexVal h1, hexVal h2, hexVal h3, hexVal h4 with
            | some a, some b, some c', some d =>
              (parseStringBody fuel rest'').map
                (fun r => (Char.ofNat (((a * 16 + b) * 16 + c') * 16 + d) :: r.1, r.2))
            | _, _, _, _ => none
          | _ => none
        else none
    else if c.toNat < 32 then
      none
    else
      (parseStringBody fuel rest).map (fun r => (c :: r.1, r.2))

/-- Parse the digit run of a JSON number component; fails on an empty
run. -/
def parseDigits (l : List Char) : Option (List Char × List Char) :=
  let ds := l.takeWhile isDigitCh
  if ds.isEmpty then none else some (ds, l.drop ds.length)

/-- Parse a JSON number starting at `l` (strict `json.loads` grammar),
returning its lexeme and the rest. -/
def parseNumber (l : List Char) : Option (List Char × List Char) :=
  let (sign, l1) :=
    match l with
    | '-' :: r => (['-'], r)
    | _ => (([] : List Char), l)
  match l1 with
  | [] => none
  | c :: _ =>
    if ¬ isDigitCh c then none
    else
      match parseDigits l1 with
      | none => none
      | some (intPart, l2) =>
        if intPart.length > 1 ∧ intPart.headD '0' = '0' then none
        else
          let (fracPart, l3) :=
            match l2 with
            | '.' :: r =>
              match parseDigits r with
              | some (ds, r') => ('.' :: ds, r')
              | none => ([], '.' :: r)
            | _ => (([] : List Char), l2)
          match l3 with
          | '.' :: _ => none
          | e :: r4 =>
            if e = 'e' ∨ e = 'E' then
              let (sgn, r5) :=
                match r4 with
                | '+' :: r => (['+'], r)
                | '-' :: r => (['-'], r)
                | _ => (([] : List Char), r4)
              match parseDigits r5 with
              | some (ds, r6) => some (sign ++ intPart ++ fracPart ++ e :: sgn ++ ds, r6)
              | none => none
            else some (sign ++ intPart ++ fracPart, l3)
          | [] => some (sign ++ intPart ++ fracPart, l3)

mutual

/-- Fuel-indexed JSON value parser. -/
def parseValueF : Nat → List Char → Option (JVal × List Char)
  | 0, _ => none
  | fuel + 1, l =>
    match skipWs l with
    | [] => none
    | c :: rest =>
      if c = '{' then
        match skipWs rest with
        | '}' :: r => some (JVal.jobj [], r)
        | r => parseMembersF fuel r []
      else if c = '[' then
        match skipWs rest with
        | ']' :: r => some (JVal.jarr [], r)
        | r => parseItemsF fuel r []
      else if c = '"' then
        (parseStringBody (rest.length + 1) rest).map (fun p => (JVal.jstr p.1, p.2))
      else if ['t', 'r', 'u', 'e'].isPrefixOf (c :: rest) then
        some (JVal.jbool true, rest.drop 3)
      else if ['f', 'a', 'l', 's', 'e'].isPrefixOf (c :: rest) then
        some (JVal.jbool false, rest.drop 4)
      else if ['n', 'u', 'l', 'l'].isPrefixOf (c :: rest) then
        some (JVal.jnull, rest.drop 3)
      else if ['N', 'a', 'N'].isPrefixOf (c :: rest) then
        some (JVal.jnum ['N', 'a', 'N'], rest.drop 2)
      else if ['I', 'n', 'f', 'i', 'n', 'i', 't', 'y'].isPrefixOf (c :: rest) then
        some (JVal.jnum ['I', 'n', 'f'], rest.drop 7)
      else if ['-', 'I', 'n', 'f', 'i', 'n', 'i', 't', 'y'].isPrefixOf (c :: rest) then
        some (JVal.jnum ['-', 'I', 'n', 'f'], rest.drop 8)
      else
        (parseNumber (c :: rest)).map (fun p => (JVal.jnum p.1, p.2))

/-- Fuel-indexed parser for object members (after the opening brace,
first member not yet consumed). -/
def parseMembersF : Nat → List Char → List (List Char × JVal) → Option (JVal × List Char)
  | 0, _, _ => none
  | fuel + 1, l, acc =>
    match skipWs l with
    | '"' :: rest =>
      match parseStringBody (rest.length + 1) rest with
      | none => none
      | some (key, r1) =>
        match skipWs r1 with
        | ':' :: r2 =>
          match parseValueF fuel r2 with
          | none => none
          | some (v, r3) =>
            match skipWs r3 with
            | ',' :: r4 => parseMembersF fuel r4 ((key, v) :: acc)
            | '}' :: r4 => some (JVal.jobj (((key, v) :: acc).reverse), r4)
            | _ => none
        | _ => none
    | _ => none

/-- Fuel-indexed parser for array items (after the opening bracket,
first item not yet consumed). -/
def parseItemsF : Nat → List Char → List JVal → Option (JVal × List Char)
  | 0, _, _ => none
  | fuel + 1, l, acc =>
    match parseValueF fuel l with
    | none => none
    | some (v, r1) =>
      match skipWs r1 with
      | ',' :: r2 => parseItemsF fuel r2 (v :: acc)
      | ']' :: r2 => some (JVal.jarr ((v :: acc).reverse), r2)
      | _ => none

end

/-- Python `json.loads` as a partial function to `JVal`: parse a
document, requiring only whitespace to remain. -/
def jsonParse (l : List Char) : Option JVal :=
  match parseValueF (l.length + 1) l with
  | some (v, rest) => if (skipWs rest).isEmpty then some v else none
  | none => none

/-- Whether `json.loads` succeeds on the text. -/
def jsonValid (l : List Char) : Bool :=
  (jsonParse l).isSome

/-! ## Exceptions

Python exceptions raised by the embedded code. `valueError` covers
`ValueError`; `otherError` stands for any other exception class
(`binascii.Error`, `UnicodeDecodeError`, `IndexError`, ...) -- the
distinction matters because some handlers catch only specific classes. -/

inductive PyErr where
  | valueError : List Char → PyErr
  | otherError : List Char → PyErr
deriving DecidableEq, Repr

/-- Message carried by an exception (its `str(e)`). -/
def PyErr.msg : PyErr → List Char
  | .valueError m => m
  | .otherError m => m

/-! ## ResponseExtractor: `_extract_json`

Embedding of `DocumentProcessor._extract_json` (the two copies in
`eb1a_processor.py` and `lambda_function.py` are textually identical). -/

/-- Single-character membership, Python `c in s`. -/
def memCh (c : Char) (l : List Char) : Bool :=
  l.any (fun x => decide (x = c))

/-- The code-fence markers used by `_extract_json`. -/
def fenceJson : List Char := "```json".data

/-- The plain code-fence marker. -/
def fence : List Char := "```".data

/-- Candidate of strategy 1:
`text.split("```json")[1].split("```")[0].strip()`. -/
def stage1Candidate (text : List Char) : List Char :=
  pyStrip ((splitOnSub fence ((splitOnSub fenceJson text).getD 1 [])).getD 0 [])

/-- Candidates of strategy 2: the stripped fenced blocks containing both
braces, in order (`[block.strip() for block in text.split("```") if ...]`). -/
def stage2Blocks (text : List Char) : List (List Char) :=
  ((splitOnSub fence text).filter (fun b => memCh '{' b && memCh '}' b)).map pyStrip

/-- Error raised by the try-block of `_extract_json`:
`Except.error true` is a `json.JSONDecodeError` from a `json.loads`
validation call, `Except.error false` is the
`ValueError("No JSON content found in response")`. -/
def extractTry (text : List Char) : Except Bool (List Char) :=
  if containsSub fenceJson text then
    (if jsonValid (stage1Candidate text) then .ok (stage1Candidate text) else .error true)
  else
    match (if containsSub fence text then (stage2Blocks text).head? else none) with
    | some b => if jsonValid b then .ok b else .error true
    | none =>
      match findIdx '{' text, rfindIdx '}' text with
      | some i, some j =>
        let cand := pySlice text i (j + 1)
        (if jsonValid cand then .ok cand else .error true)
      | _, _ => .error false

/-- Error classes of `_extract_json` as seen by its caller: all three are
`ValueError`s in the source (`noJson` propagates from the try-block,
`failed` is raised by the `except json.JSONDecodeError` handler). -/
inductive JErr where
  | noJson : JErr
  | failed : JErr
deriving DecidableEq, Repr

/-- The repair-pass candidate: the first-brace-to-last-brace substring of
the whole text with every single quote replaced by a double quote. -/
def repairCandidate (text : List Char) : List Char :=
  (pySlice text ((findIdx '{' text).getD 0) ((rfindIdx '}' text).getD 0 + 1)).map
    (fun c => if c = Char.ofNat 39 then '"' else c)

/-- `DocumentProcessor._extract_json`: the try-block, with
`json.JSONDecodeError` recovered by the repair pass when the text has
both braces, and every failure surfaced as a `ValueError`. -/
def extract_json (text : List Char) : Except JErr (List Char) :=
  match extractTry text with
  | .ok j => .ok j
  | .error false => .error .noJson
  | .error true =>
    if memCh '{' text && memCh '}' text then
      (if jsonValid (repairCandidate text) then .ok (repairCandidate text) else .error .failed)
    else .error .failed

/-- The extraction procedure exactly as claim C2 states it: strategies
tried in order 1-4, where each later strategy runs whenever the previous
one is inapplicable or its candidate fails to parse, and the repair pass
applies only to step 3's candidate. -/
def extractJsonClaimed (text : List Char) : Except JErr (List Char) :=
  let s3 : Except JErr (List Char) :=
    match findIdx '{' text, rfindIdx '}' text with
    | some i, some j =>
      let cand := pySlice text i (j + 1)
      if jsonValid cand then .ok cand
      else
        let cand' := cand.map (fun c => if c = Char.ofNat 39 then '"' else c)
        (if jsonValid cand' then .ok cand' else .error .failed)
    | _, _ => .error .noJson
  let s2 : Except JErr (List Char) :=
    match (if containsSub fence text then (stage2Blocks text).head? else none) with
    | some b => if jsonValid b then .ok b else s3
    | none => s3
  if containsSub fenceJson text then
    (if jsonValid (stage1Candidate text) then .ok (stage1Candidate text) else s2)
  else s2

/-- Amended description of `_extract_json` (claim C2 corrected): the
strategies are ordered by applicability only -- the json-tagged fence if
present, else the first brace-containing fenced block if any fence is
present, else the first-brace-to-last-brace substring if both braces
exist. When no strategy is applicable the extractor fails with the
no-JSON `ValueError`; when the applicable strategy's candidate fails to
parse, the extractor skips all remaining strategies and goes directly to
the repair pass (single quotes replaced by double quotes in the
first-brace-to-last-brace substring of the whole text, which coincides
with step 3's candidate), failing when that repaired candidate does not
parse either. -/
def extractJsonAmended (text : List Char) : Except JErr (List Char) :=
  let repair : Except JErr (List Char) :=
    if memCh '{' text && memCh '}' text then
      (if jsonValid (repairCandidate text) then .ok (repairCandidate text) else .error .failed)
    else .error .failed
  let s3cand : Option (List Char) :=
    match findIdx '{' text, rfindIdx '}' text with
    | some i, some j => some (pySlice text i (j + 1))
    | _, _ => none
  let applicable : Option (List Char) :=
    if containsSub fenceJson text then some (stage1Candidate text)
    else if containsSub fence text then
      match (stage2Blocks text).head? with
      | some b => some b
      | none => s3cand
    else s3cand
  match applicable with
  | none => .error .noJson
  | some cand => if jsonValid cand then .ok cand else repair

/-! ## ScoreRater

The success-probability computation appearing identically in both
processors' `process_document`. -/

/-- Map the verdict's `met_criteria_count` and `threshold_met` to the
probability rating and its explanation string (the f-string templates of
the source with the count interpolated). -/
def successProbability (metCount : Int) (thresholdMet : Bool) : List Char × List Char :=
  if thresholdMet ∧ 5 ≤ metCount then
    ("High".data,
     "Strong case meeting ".data ++ (toString metCount).data ++ " criteria (only 3 required)".data)
  else if thresholdMet then
    ("Moderate".data,
     "Meets minimum threshold of 3 criteria with ".data ++ (toString metCount).data
       ++ " criteria satisfied".data)
  else if 2 ≤ metCount then
    ("Low".data,
     "Nearly meets threshold with ".data ++ (toString metCount).data ++ " criteria (3 required)".data)
  else
    ("Very Low".data,
     "Only meets ".data ++ (toString metCount).data ++ " criteria out of 3 required".data)

/-! ## RetrievalConsolidator: `kb_retriever.py`

The Bedrock retrieval service is a collaborator, modelled as a function
from query text and result count to either a citation list or an
exception message. Wall-clock timing fields of the source are omitted. -/

/-- A formatted citation as produced by `KnowledgeBaseRetriever.retrieve`.
Scores are modelled as integers: the code only ever compares them. -/
structure RawCitation where
  text : List Char
  source : List Char
  source_location : List Char
  score : Int
deriving DecidableEq, Repr

/-- A consolidated citation: a retrieved citation after
`perform_targeted_retrievals` annotates it with `query_source` and
`query_type`. -/
structure ConsCitation where
  text : List Char
  source : List Char
  source_location : List Char
  score : Int
  query_source : List Char
  query_type : List Char
deriving DecidableEq, Repr

/-- Result dictionary of one `retrieve` call. -/
structure RetrieveResult where
  query : List Char
  error : Option (List Char)
  citation_count : Nat
  citations : List RawCitation
deriving DecidableEq, Repr

/-- The retrieval collaborator: query text and number of results to
either a citation list or an exception. -/
def RetrOracle : Type :=
  List Char → Nat → Except (List Char) (List RawCitation)

/-- `KnowledgeBaseRetriever.retrieve`: call the collaborator; any
exception is caught and turned into an error result with an empty
citation list, so the method itself never raises. -/
def retrieveModel (oracle : RetrOracle) (query : List Char) (numResults : Nat) :
    RetrieveResult :=
  match oracle query numResults with
  | .ok rs => { query := query, error := none, citation_count := rs.length, citations := rs }
  | .error e => { query := query, error := some e, citation_count := 0, citations := [] }

/-- A query as produced by `ResumeAnalyzer.generate_queries`
(`query_type` is always set by the generator; `criterion` is carried only
for criterion-specific queries and never read downstream). -/
structure QueryInfo where
  query_text : List Char
  query_type : List Char
deriving DecidableEq, Repr

/-- Number of results requested per query:
`3 if query_type == "general" else 5`. -/
def numResultsFor (q : QueryInfo) : Nat :=
  if q.query_type = "general".data then 3 else 5

/-- Attach `query_source` and `query_type` to a retrieved citation. -/
def annotate (q : QueryInfo) (c : RawCitation) : ConsCitation :=
  { text := c.text, source := c.source, source_location := c.source_location,
    score := c.score, query_source := q.query_text, query_type := q.query_type }

/-- Membership in the `seen_citations` set; the set of Python
`hash(text[:200])` fingerprints is modelled as the set of the 200-char
prefixes themselves. -/
def keyMem (k : List Char) (s : List (List Char)) : Bool :=
  s.any (fun x => decide (x = k))

/-- The per-query inner loop over citations: skip a citation whose
200-character prefix was already seen, otherwise record the fingerprint
and append the annotated citation. Returns the updated
`(seen_citations, consolidated_citations)` pair. -/
def dedupPair : List (List Char) → List ConsCitation → List ConsCitation →
    List (List Char) × List ConsCitation
  | seen, acc, [] => (seen, acc)
  | seen, acc, c :: cs =>
    if keyMem (c.text.take 200) seen then dedupPair seen acc cs
    else dedupPair (c.text.take 200 :: seen) (acc ++ [c]) cs

/-- State threaded through the query loop of
`perform_targeted_retrievals`. -/
structure ConsLoopState where
  all_results : List (List Char × RetrieveResult)
  seen : List (List Char)
  consolidated : List ConsCitation
deriving Repr

/-- One iteration of the query loop: retrieve, store the result under the
query type (dict assignment, modelled as append with last-wins lookup),
and fold the citations through the dedup pair. -/
def consLoopStep (oracle : RetrOracle) (st : ConsLoopState) (q : QueryInfo) : ConsLoopState :=
  let results := retrieveModel oracle q.query_text (numResultsFor q)
  let p := dedupPair st.seen st.consolidated (results.citations.map (annotate q))
  { all_results := st.all_results ++ [(q.query_type, results)],
    seen := p.1, consolidated := p.2 }

/-- The full query loop of `perform_targeted_retrievals`. -/
def consolidateLoop (oracle : RetrOracle) (queries : List QueryInfo) : ConsLoopState :=
  queries.foldl (consLoopStep oracle) ⟨[], [], []⟩

/-- Insertion of a citation into a descending-by-score list, placing it
before the first element of not-greater score: the stable model of
Python `sorted(key=score, reverse=True)`. -/
def insertDesc (c : ConsCitation) : List ConsCitation → List ConsCitation
  | [] => [c]
  | d :: ds => if d.score ≤ c.score then c :: d :: ds else d :: insertDesc c ds

/-- Stable descending sort by score. -/
def sortDesc : List ConsCitation → List ConsCitation
  | [] => []
  | c :: cs => insertDesc c (sortDesc cs)

/-- Return value of `perform_targeted_retrievals` (timing omitted). -/
structure ConsolidatedResult where
  query_count : Nat
  query_results : List (List Char × RetrieveResult)
  consolidated_citations : List ConsCitation
deriving Repr

/-- `KnowledgeBaseRetriever.perform_targeted_retrievals`: run every
query, consolidate with dedup, sort by score descending and keep the top
10. -/
def performTargetedRetrievals (oracle : RetrOracle) (queries : List QueryInfo) :
    ConsolidatedResult :=
  let st := consolidateLoop oracle queries
  { query_count := queries.length,
    query_results := st.all_results,
    consolidated_citations := (sortDesc st.consolidated).take 10 }

/-- `perform_targeted_retrievals` as an exception-aware computation: its
body contains no try/except, but `retrieve` absorbs every collaborator
failure, so the method always returns normally. -/
def performTargetedRetrievalsE (oracle : RetrOracle) (queries : List QueryInfo) :
    Except PyErr ConsolidatedResult :=
  .ok (performTargetedRetrievals oracle queries)

/-- Fuel-indexed worker for `specDedup`. -/
def specDedupF : Nat → List ConsCitation → List ConsCitation
  | _, [] => []
  | 0, l => l
  | fuel + 1, c :: cs =>
    c :: specDedupF fuel (cs.filter (fun d => decide (d.text.take 200 ≠ c.text.take 200)))

/-- Deduplication as the spec describes it: of each group of citations
sharing a first-200-character text fingerprint, keep only the first
occurrence, in query order. -/
def specDedup (l : List ConsCitation) : List ConsCitation :=
  specDedupF l.length l

/-- The citations of all successful queries, annotated, flattened in
query order (a failed query contributes its recorded empty list). -/
def flatCitations (oracle : RetrOracle) (queries : List QueryInfo) : List ConsCitation :=
  queries.flatMap (fun q =>
    (retrieveModel oracle q.query_text (numResultsFor q)).citations.map (annotate q))

/-! ## Parsed-verdict documents

Helpers on `JVal` for the dict operations the processors apply to a
parsed verdict. Python dicts from `json.loads` keep the last duplicate
key, so lookup takes the last matching pair and assignment appends
(lookup-equivalent to in-place update). -/

/-- Python `verdict[key]` lookup (last write wins). -/
def jGet (v : JVal) (k : List Char) : Option JVal :=
  match v with
  | .jobj fields => pyGetLast fields k
  | _ => none

/-- Python `verdict[key] = x` assignment; assigning into a non-dict
parsed value raises `TypeError`. -/
def jSet (v : JVal) (k : List Char) (x : JVal) : Except PyErr JVal :=
  match v with
  | .jobj fields => .ok (.jobj (fields ++ [(k, x)]))
  | _ => .error (.otherError "TypeError".data)

/-- Value of a decimal integer lexeme. -/
def digitsToNat (ds : List Char) : Nat :=
  ds.foldl (fun a c => a * 10 + (c.toNat - 48)) 0

/-- Integer value of a JSON number lexeme, when it is a plain integer. -/
def lexToInt (lex : List Char) : Option Int :=
  match lex with
  | '-' :: ds => if ds ≠ [] ∧ ds.all isDigitCh then some (-(digitsToNat ds : Int)) else none
  | ds => if ds ≠ [] ∧ ds.all isDigitCh then some ((digitsToNat ds : Int)) else none

/-- `verdict.get("met_criteria_count", 0)` as an integer (claims exercise
only integer counts; any other shape yields the default). -/
def metCountOf (v : JVal) : Int :=
  match jGet v "met_criteria_count".data with
  | some (.jnum lex) => (lexToInt lex).getD 0
  | _ => 0

/-- `verdict.get("threshold_met", False)` as a Bool. -/
def thresholdOf (v : JVal) : Bool :=
  match jGet v "threshold_met".data with
  | some (.jbool b) => b
  | _ => false

/-- One retrieved citation rendered as the JSON-like dict stored into the
verdict's `citations` entry. -/
def citationJ (c : RawCitation) : JVal :=
  .jobj [("text".data, .jstr c.text), ("source".data, .jstr c.source),
         ("source_location".data, .jstr c.source_location),
         ("score".data, .jnum (toString c.score).data)]

/-- `_extract_json` with its errors as `ValueError`s (how the callers see
them). -/
def extractJsonE (text : List Char) : Except PyErr (List Char) :=
  match extract_json text with
  | .ok j => .ok j
  | .error .noJson => .error (.valueError "No JSON content found in response".data)
  | .error .failed => .error (.valueError "Failed to extract valid JSON".data)

/-- `json.loads` as an exception-aware computation. -/
def jsonLoadsE (text : List Char) : Except PyErr JVal :=
  match jsonParse text with
  | some v => .ok v
  | none => .error (.otherError "JSONDecodeError".data)

/-! ## EvaluationOrchestrator: `lambda_function.py`

The generation and retrieval collaborators of the three evaluation
methods. The direct-generation collaborator is indexed by its call
number, so repeated invocations are observable in the model. Prompt
construction is pure string building from the inputs and cannot fail;
the collaborator consumes the context implicitly. -/

structure EvalCollab where
  pdfText : Except PyErr (List Char)
  ragGen : Except PyErr (List Char)
  ragCitations : List RawCitation
  twoStepRetrieve : Except PyErr (List RawCitation)
  twoStepGen : Except PyErr (List Char)
  directGen : Nat → Except PyErr (List Char)

/-- Try-block body of `_retrieve_and_generate` (tier 1): combined
retrieve-and-generate call, JSON extraction and decoding, citation and
visa-category augmentation. -/
def tier1Body (C : EvalCollab) : Except PyErr JVal := do
  let gen ← C.ragGen
  let j ← extractJsonE gen
  let v ← jsonLoadsE j
  let v1 ← jSet v "citations".data (.jarr (C.ragCitations.map citationJ))
  jSet v1 "visa_category".data (.jstr "EB1A".data)

/-- Try-block body of `_retrieve_and_generate_two_step` (tier 2):
explicit retrieval, then generation, then JSON extraction and decoding,
then augmentation. -/
def tier2Body (C : EvalCollab) : Except PyErr JVal := do
  let cits ← C.twoStepRetrieve
  let gen ← C.twoStepGen
  let j ← extractJsonE gen
  let v ← jsonLoadsE j
  let v1 ← jSet v "citations".data (.jarr (cits.map citationJ))
  jSet v1 "visa_category".data (.jstr "EB1A".data)

/-- Try-block body of `_evaluate_against_criteria` (tier 3): direct
generation (call number `k`), JSON extraction and decoding, and
visa-category augmentation. -/
def tier3Body (C : EvalCollab) (k : Nat) : Except PyErr JVal := do
  let gen ← C.directGen k
  let j ← extractJsonE gen
  let v ← jsonLoadsE j
  jSet v "visa_category".data (.jstr "EB1A".data)

/-- `_evaluate_against_criteria`: its try/except re-raises any exception,
so the method is its body; the returned counter records that one direct
generation call was spent. -/
def evaluateAgainstCriteriaLF (C : EvalCollab) (k : Nat) : Except PyErr JVal × Nat :=
  (tier3Body C k, k + 1)

/-- `_retrieve_and_generate` (tier 1): on any exception in the body --
JSON errors and service errors alike -- fall back to
`_evaluate_against_criteria`. `process_document` never calls this
method. -/
def retrieveAndGenerate (C : EvalCollab) (k : Nat) : Except PyErr JVal × Nat :=
  match tier1Body C with
  | .ok v => (.ok v, k)
  | .error _ => evaluateAgainstCriteriaLF C k

/-- `_retrieve_and_generate_two_step` (tier 2): on any exception in the
body fall back to `_evaluate_against_criteria`. -/
def retrieveAndGenerateTwoStep (C : EvalCollab) (k : Nat) : Except PyErr JVal × Nat :=
  match tier2Body C with
  | .ok v => (.ok v, k)
  | .error _ => evaluateAgainstCriteriaLF C k

/-- Result of `process_document` in `lambda_function.py` (timing data
omitted). -/
structure LFResult where
  visa_category : List Char
  criteria_analysis : JVal
  success_probability : List Char × List Char
  evaluation_method : List Char

/-- Build the result dictionary of `process_document`
(`lambda_function.py`) from the verdict and the evaluation method
label. -/
def lfBuild (v : JVal) (method : List Char) : LFResult :=
  { visa_category := "EB1A".data, criteria_analysis := v,
    success_probability := successProbability (metCountOf v) (thresholdOf v),
    evaluation_method := method }

/-- The except-branch of `process_document`'s inner try: one more
`_evaluate_against_criteria` call (the `k1`-th direct call), whose
failure propagates. -/
def lfFallback (C : EvalCollab) (k1 : Nat) : Except PyErr LFResult :=
  match (evaluateAgainstCriteriaLF C k1).1 with
  | .ok v => .ok (lfBuild v "direct".data)
  | .error e => .error e

/-- `DocumentProcessor.process_document` (`lambda_function.py`): extract
the PDF text; call `_retrieve_and_generate_two_step` (which internally
already falls back to `_evaluate_against_criteria`); if that call raises,
catch and call `_evaluate_against_criteria` once more; rate and build the
result. A failure of the final direct call propagates (the outer
try/except logs and re-raises). When the two-step method returns -- even
through its internal fallback -- the method label is `"RAG"`. -/
def processDocumentLF (C : EvalCollab) : Except PyErr LFResult :=
  match C.pdfText with
  | .error e => .error e
  | .ok _text =>
    match retrieveAndGenerateTwoStep C 0 with
    | (.ok v, _) => .ok (lfBuild v "RAG".data)
    | (.error _, k1) => lfFallback C k1

/-- The orchestration exactly as claim C1 states it: tier 1, then tier 2,
then tier 3, in strict order, each attempted at most once, any tier's
exception falling through to the next, and a tier-3 exception fatal. -/
def processDocumentClaimed (C : EvalCollab) : Except PyErr JVal :=
  match C.pdfText with
  | .error e => .error e
  | .ok _text =>
    match tier1Body C with
    | .ok v => .ok v
    | .error _ =>
      match tier2Body C with
      | .ok v => .ok v
      | .error _ => tier3Body C 0

/-- Amended orchestration (claim C1 corrected): tier 1 is defined but
never invoked; the chain is tier 2, then tier 3, then -- when the first
tier-3 attempt inside tier 2's handler also raises -- a second tier-3
attempt made by `process_document`'s own handler, whose failure is
fatal. -/
def processDocumentAmendedSpec (C : EvalCollab) : Except PyErr JVal :=
  match C.pdfText with
  | .error e => .error e
  | .ok _text =>
    match tier2Body C with
    | .ok v => .ok v
    | .error _ =>
      match tier3Body C 0 with
      | .ok v => .ok v
      | .error _ => tier3Body C 1

/-! ## Base64

Model of `base64.b64decode` (default `validate=False`: characters
outside the alphabet are discarded before decoding) and of the standard
encoding that produced a base64-encoded request body. -/

/-- The base64 alphabet. -/
def b64Alphabet : List Char :=
  "ABCDEFGHIJKLMNOPQRSTUVWXYZabcdefghijklmnopqrstuvwxyz0123456789+/".data

/-- Character of a sextet. -/
def b64Char (n : Nat) : Char :=
  b64Alphabet.getD n '?'

/-- Sextet of a character, `none` outside the alphabet. -/
def b64Val (c : Char) : Option Nat :=
  b64Alphabet.findIdx? (fun x => decide (x = c))

/-- Standard base64 encoding of a byte sequence. -/
def b64encode : List Nat → List Char
  | [] => []
  | [a] => [b64Char (a / 4), b64Char (a % 4 * 16), '=', '=']
  | [a, b] => [b64Char (a / 4), b64Char (a % 4 * 16 + b / 16), b64Char (b % 16 * 4), '=']
  | a :: b :: c :: rest =>
    b64Char (a / 4) :: b64Char (a % 4 * 16 + b / 16) :: b64Char (b % 16 * 4 + c / 64) ::
      b64Char (c % 64) :: b64encode rest

/-- Decode a base64 text already filtered to alphabet characters and
padding, four characters at a time. -/
def b64decodeQuads : List Char → Except (List Char) (List Nat)
  | [] => .ok []
  | c1 :: c2 :: c3 :: c4 :: rest =>
    match b64Val c1, b64Val c2 with
    | some a, some b =>
      if c3 = '=' then
        if c4 = '=' ∧ rest = [] then .ok [a * 4 + b / 16]
        else .error "Invalid base64-encoded string".data
      else
        match b64Val c3 with
        | some c =>
          if c4 = '=' then
            if rest = [] then .ok [a * 4 + b / 16, b % 16 * 16 + c / 4]
            else .error "Invalid base64-encoded string".data
          else
            match b64Val c4 with
            | some d =>
              (b64decodeQuads rest).map
                (fun t => (a * 4 + b / 16) :: (b % 16 * 16 + c / 4) :: (c % 4 * 64 + d) :: t)
            | none => .error "Invalid base64-encoded string".data
        | none => .error "Invalid base64-encoded string".data
    | _, _ => .error "Invalid base64-encoded string".data
  | _ => .error "Incorrect padding".data

/-- `base64.b64decode` on text. -/
def b64decode (s : List Char) : Except (List Char) (List Nat) :=
  b64decodeQuads (s.filter (fun c => (b64Val c).isSome || decide (c = '=')))

/-! ## UTF-8 -/

/-- UTF-8 encoding of one character. -/
def utf8EncodeChar (c : Char) : List Nat :=
  let n := c.toNat
  if n < 128 then [n]
  else if n < 2048 then [192 + n / 64, 128 + n % 64]
  else if n < 65536 then [224 + n / 4096, 128 + n / 64 % 64, 128 + n % 64]
  else [240 + n / 262144, 128 + n / 4096 % 64, 128 + n / 64 % 64, 128 + n % 64]

/-- Python `str.encode("utf-8")`. -/
def utf8Encode (s : List Char) : List Nat :=
  s.flatMap utf8EncodeChar

/-- Continuation-byte test. -/
def contByte (b : Nat) : Bool :=
  128 ≤ b && b < 192

/-- Fuel-indexed UTF-8 decoder (strict: rejects overlong forms and
surrogate code points, as Python's `bytes.decode("utf-8")` does). -/
def utf8DecodeGo : Nat → List Nat → Option (List Char)
  | _, [] => some []
  | 0, _ => none
  | fuel + 1, b :: bs =>
    if b < 128 then (utf8DecodeGo fuel bs).map (fun r => Char.ofNat b :: r)
    else if 194 ≤ b ∧ b ≤ 223 then
      match bs with
      | b2 :: bs' =>
        if contByte b2 then
          (utf8DecodeGo fuel bs').map (fun r => Char.ofNat ((b - 192) * 64 + (b2 - 128)) :: r)
        else none
      | _ => none
    else if 224 ≤ b ∧ b ≤ 239 then
      match bs with
      | b2 :: b3 :: bs' =>
        if contByte b2 ∧ contByte b3 then
          let cp := (b - 224) * 4096 + (b2 - 128) * 64 + (b3 - 128)
          if 2048 ≤ cp ∧ (cp < 55296 ∨ 57344 ≤ cp) then
            (utf8DecodeGo fuel bs').map (fun r => Char.ofNat cp :: r)
          else none
        else none
      | _ => none
    else if 240 ≤ b ∧ b ≤ 244 then
      match bs with
      | b2 :: b3 :: b4 :: bs' =>
        if contByte b2 ∧ contByte b3 ∧ contByte b4 then
          let cp := (b - 240) * 262144 + (b2 - 128) * 4096 + (b3 - 128) * 64 + (b4 - 128)
          if 65536 ≤ cp ∧ cp ≤ 1114111 then
            (utf8DecodeGo fuel bs').map (fun r => Char.ofNat cp :: r)
          else none
        else none
      | _ => none
    else none

/-- Python `bytes.decode("utf-8")` as a partial function. -/
def utf8Decode (l : List Nat) : Option (List Char) :=
  utf8DecodeGo l.length l

/-! ## FormDecoder: `parse_multipart`

Embedding of `parse_multipart` (identical in `lambda_handlers.py` and
`lambda_function.py`). Bodies are modelled as text or bytes like the
Python value; headers as an association list. -/

inductive BodyVal where
  | str : List Char → BodyVal
  | bytes : List Nat → BodyVal

structure Event where
  body : BodyVal
  isBase64Encoded : Bool
  headers : List (List Char × List Char)

inductive FormVal where
  | bytes : List Nat → FormVal
  | str : List Char → FormVal
deriving DecidableEq, Repr

/-- The decoded form-data dictionary (assignment appends; lookup takes
the last write, matching Python dict update). -/
abbrev FormData : Type :=
  List (List Char × FormVal)

/-- The `{k.lower(): v}` header dictionary comprehension. -/
def lowerHeaders (hs : List (List Char × List Char)) : List (List Char × List Char) :=
  hs.map (fun p => (pyLower p.1, p.2))

/-- `headers.get(k, "")` after lowering. -/
def headerGet (hs : List (List Char × List Char)) (k : List Char) : List Char :=
  (pyGetLast (lowerHeaders hs) k).getD []

/-- The boundary-extraction loop: the first `;`-piece of the content type
containing `"boundary"`, split on `=`; taking index 1 raises `IndexError`
when that piece has no `=`. -/
def extractBoundary (ct : List Char) : Except PyErr (Option (List Char)) :=
  match (splitOnSub [';'] ct).find? (fun part => containsSub "boundary".data part) with
  | none => .ok none
  | some part =>
    match (splitOnSub ['='] part).get? 1 with
    | some seg => .ok (some (stripQuotes (pyStrip seg)))
    | none => .error (.otherError "list index out of range".data)

/-- The CRLF byte pair. -/
def crlfB : List Nat := [13, 10]

/-- The blank-line separator between a part's headers and content. -/
def crlfcrlfB : List Nat := [13, 10, 13, 10]

/-- One step of the header-line accumulation loop. -/
def headerStep (d : List (List Char × List Char)) (line : List Char) :
    List (List Char × List Char) :=
  if memCh ':' line then
    match splitFirstSub [':'] line with
    | some (k, v) => d ++ [(pyLower (pyStrip k), pyStrip v)]
    | none => d
  else d

/-- Parse the decoded header block of one part into a header dictionary
(`key.strip().lower(): value.strip()` for each `key: value` line). -/
def parseHeaderLines (hstr : List Char) : List (List Char × List Char) :=
  (splitOnSub ['\r', '\n'] hstr).foldl headerStep []

/-- One step of the content-disposition item scan. -/
def dispStep (p : Option (List Char) × Option (List Char)) (item0 : List Char) :
    Option (List Char) × Option (List Char) :=
  let item := pyStrip item0
  if startsWith "name=".data item then (some (stripQuotes (item.drop 5)), p.2)
  else if startsWith "filename=".data item then (p.1, some (stripQuotes (item.drop 9)))
  else p

/-- Scan the content-disposition items for `name=` and `filename=`
values (each stripped of surrounding quotes); the last occurrence of
each wins. -/
def parseDisposition (cd : List Char) : Option (List Char) × Option (List Char) :=
  (splitOnSub [';'] cd).foldl dispStep (none, none)

/-- Parse one multipart segment into an optional form field. Any
exception inside the per-part try (no blank line, undecodable header
bytes, undecodable text content) makes the part be skipped; a part
without a (non-empty) name is skipped silently. A part with a non-empty
filename keeps its content, less the trailing CRLF, as raw bytes;
otherwise the content is decoded as UTF-8 text. -/
def processPart (part : List Nat) : Option (List Char × FormVal) :=
  match splitFirstSub crlfcrlfB part with
  | none => none
  | some (hraw, content) =>
    match utf8Decode hraw with
    | none => none
    | some hstr =>
      let headers := parseHeaderLines hstr
      let cd := (pyGetLast headers "content-disposition".data).getD []
      let fieldName := (parseDisposition cd).1
      let filename := ((parseDisposition cd).2).getD []
      match fieldName with
      | some nm =>
        if nm = [] then none
        else if filename ≠ [] then
          some (nm, .bytes (content.take (content.length - 2)))
        else
          match utf8Decode (content.take (content.length - 2)) with
          | some t => some (nm, .str t)
          | none => none
      | none => none

/-- One step of the form-data accumulation loop over the split
segments. -/
def formStep (d : FormData) (part : List Nat) : FormData :=
  if pyStripB part = [] ∨ pyStripB part = [45, 45] then d
  else
    match processPart part with
    | some (nm, v) => d ++ [(nm, v)]
    | none => d

/-- The decode stages of `parse_multipart` after the body has been
resolved to bytes: content-type check, boundary extraction, segment
split and the per-part loop. -/
def parse_with_body (headers : List (List Char × List Char)) (bodyBytes : List Nat) :
    Except PyErr FormData := do
  let ct := headerGet headers "content-type".data
  if ¬ startsWith "multipart/form-data".data ct then
    throw (PyErr.valueError "Invalid content type. Expected multipart/form-data".data)
  let obnd ←
    match extractBoundary ct with
    | .ok o => pure o
    | .error e => throw e
  let boundary ←
    match obnd with
    | some b =>
      if b = [] then throw (PyErr.valueError "No boundary found in content type".data)
      else pure b
    | none => throw (PyErr.valueError "No boundary found in content type".data)
  return (splitOnSub ([45, 45] ++ utf8Encode boundary) bodyBytes).foldl formStep []

/-- The try-block of `parse_multipart`. -/
def parse_multipart_inner (event : Event) : Except PyErr FormData := do
  let bodyBytes ←
    if event.isBase64Encoded then
      match (match event.body with
             | .str s => b64decode s
             | .bytes bs => b64decode (bs.map Char.ofNat)) with
      | .ok bs => pure bs
      | .error e => throw (PyErr.valueError ("Failed to decode base64 body: ".data ++ e))
    else
      match event.body with
      | .str s => pure (utf8Encode s)
      | .bytes bs => pure bs
  parse_with_body event.headers bodyBytes

/-- `parse_multipart`: the whole body runs under a try/except that wraps
every exception into
`ValueError("Failed to parse multipart/form-data: " + str(e))`. -/
def parse_multipart (event : Event) : Except PyErr FormData :=
  match parse_multipart_inner event with
  | .ok d => .ok d
  | .error e =>
    .error (PyErr.valueError ("Failed to parse multipart/form-data: ".data ++ e.msg))

/-! ## Well-formed multipart bodies (the inputs of claim C6) -/

/-- One part of a well-formed multipart body to be encoded. -/
structure MPart where
  name : List Char
  filename : Option (List Char)
  content : List Nat

/-- The content-disposition header line of a part. -/
def dispLine (p : MPart) : List Char :=
  "Content-Disposition: form-data; name=\"".data ++ p.name ++ "\"".data ++
    (match p.filename with
     | some f => "; filename=\"".data ++ f ++ "\"".data
     | none => [])

/-- Interior of one encoded part: the bytes standing between its
boundary delimiter and the next delimiter (CRLF, header line, blank
line, content, terminating CRLF). -/
def partInterior (p : MPart) : List Nat :=
  crlfB ++ utf8Encode (dispLine p) ++ crlfcrlfB ++ p.content ++ crlfB

/-- A well-formed CRLF-terminated multipart body: delimited parts
followed by the terminal double-dash marker. -/
def encodeMultipart (boundary : List Char) (parts : List MPart) : List Nat :=
  parts.flatMap (fun p => [45, 45] ++ utf8Encode boundary ++ partInterior p) ++
    [45, 45] ++ utf8Encode boundary ++ [45, 45, 13, 10]

/-- Characters allowed in the tokens (boundary, field names, filenames)
of a well-formed body: printable ASCII other than the quote, delimiter
and separator characters that take part in the framing. -/
def tokenOK (s : List Char) : Prop :=
  s ≠ [] ∧ ∀ c ∈ s, 32 < c.toNat ∧ c.toNat < 127 ∧
    c ≠ '"' ∧ c ≠ Char.ofNat 39 ∧ c ≠ ';' ∧ c ≠ '=' ∧ c ≠ ':'

instance (s : List Char) : Decidable (tokenOK s) := by
  unfold tokenOK; infer_instance

/-- Filename constraint of a part: absent, or a well-formed token. -/
def optTokenOK : Option (List Char) → Prop
  | none => True
  | some f => tokenOK f

instance (o : Option (List Char)) : Decidable (optTokenOK o) := by
  cases o <;> (unfold optTokenOK; infer_instance)

/-- Conditions under which one encoded part decodes cleanly: well-formed
name and filename tokens, content made of bytes, and an interior free of
the boundary delimiter. -/
def partOK (B : List Char) (p : MPart) : Prop :=
  tokenOK p.name ∧ optTokenOK p.filename ∧
    containsSub ([45, 45] ++ utf8Encode B) (partInterior p) = false ∧
    ∀ b ∈ p.content, b < 256

instance (B : List Char) (p : MPart) : Decidable (partOK B p) := by
  unfold partOK; infer_instance

/-- The content-disposition header value of an encoded part, as it comes
back from the header-line parser. -/
def dVal (p : MPart) : List Char :=
  "form-data; name=\"".data ++ p.name ++ "\"".data ++
    (match p.filename with
     | some f => "; filename=\"".data ++ f ++ "\"".data
     | none => [])

/-- The part carrying the uploaded file in a well-formed body. -/
def filePart (fn : List Char) (bs : List Nat) : MPart :=
  { name := "file".data, filename := some fn, content := bs }

/-! ## The EB1A processor: `eb1a_processor.py` and `resume_analyzer.py`

`ResumeAnalyzer.analyze_resume` is driven entirely by the external `re`
regex engine (pattern search and sentence splitting), so it is modelled
as a collaborator producing the structured profile; `generate_queries`
is pure repository code and is translated directly. -/

/-- Evidence entry of one criterion in the structured profile. -/
structure CritInfo where
  name : List Char
  evidence : List (List Char)
  evidence_count : Nat

/-- The structured profile produced by `analyze_resume` (length and
timing fields omitted). -/
structure StructuredProfile where
  criteria_evidence : List (List Char × CritInfo)
  relevant_criteria : List (List Char)

/-- `ResumeAnalyzer.generate_queries`: one general query, one
criterion-specific query per relevant criterion with a non-empty name,
and a threshold query when at least two criteria are relevant. -/
def generateQueries (profile : StructuredProfile) : List QueryInfo :=
  let base : List QueryInfo :=
    [⟨"USCIS guidelines and requirements for all EB1A criteria and evidence standards".data,
      "general".data⟩]
  let withCrits := profile.relevant_criteria.foldl
    (fun acc ck =>
      let nm := ((pyGetLast profile.criteria_evidence ck).map (fun ci => ci.name)).getD []
      if nm ≠ [] then
        acc ++ [⟨"Rejected EB1A petitions where the evidence for \x27".data ++ nm ++
                  "\x27 was deemed insufficient or inadequate".data,
                "criterion_specific".data⟩]
      else acc)
    base
  if 2 ≤ profile.relevant_criteria.length then
    withCrits ++
      [⟨"Rejected EB1A petitions where the applicant met 2 or 3 criteria but was still denied".data,
        "threshold".data⟩]
  else withCrits

/-- Collaborators of the EB1A processor: the PDF text extractor (PyPDF2,
already wrapped into a ValueError by `_extract_text_from_pdf`), the
regex-driven resume analyzer, the Bedrock retrieval service and the two
generation calls. -/
structure EB1ACollab where
  extractText : List Nat → Except PyErr (List Char)
  analyzeResume : List Char → StructuredProfile
  kb : RetrOracle
  llmGen : Except PyErr (List Char)
  directGen : Except PyErr (List Char)

/-- Try-block body of `_evaluate_with_llm`: generation, extraction,
decoding, then augmentation with `visa_category` and
`evaluation_metadata` (the metadata's timing entry is omitted). -/
def evalWithLLMBody (C : EB1ACollab) (profile : StructuredProfile) (kbCount : Nat) :
    Except PyErr JVal := do
  let gen ← C.llmGen
  let j ← extractJsonE gen
  let v ← jsonLoadsE j
  let v1 ← jSet v "visa_category".data (.jstr "EB1A".data)
  jSet v1 "evaluation_metadata".data (.jobj
    [("profile_criteria_count".data, .jnum (toString profile.relevant_criteria.length).data),
     ("citation_count".data, .jnum (toString kbCount).data)])

/-- `_evaluate_against_criteria` (eb1a_processor.py): direct generation,
extraction, decoding, visa-category augmentation; its try/except
re-raises. -/
def evaluateAgainstCriteriaEB (C : EB1ACollab) : Except PyErr JVal := do
  let gen ← C.directGen
  let j ← extractJsonE gen
  let v ← jsonLoadsE j
  jSet v "visa_category".data (.jstr "EB1A".data)

/-- `_evaluate_with_llm`: on any exception in the body, fall back to
`_evaluate_against_criteria`. -/
def evaluateWithLLM (C : EB1ACollab) (profile : StructuredProfile) (kbCount : Nat) :
    Except PyErr JVal :=
  match evalWithLLMBody C profile kbCount with
  | .ok v => .ok v
  | .error _ => evaluateAgainstCriteriaEB C

/-- Result of `process_document` in `eb1a_processor.py` (timing data
omitted). `citation_count` is `kb_results.get("citation_count", 0)`,
and the dict returned by `perform_targeted_retrievals` has no such key,
so the stored count is always the default 0. -/
structure EB1AResult where
  visa_category : List Char
  relevant_criteria : List (List Char)
  criteria_count : Nat
  criteria_analysis : JVal
  success_probability : List Char × List Char
  citation_count : Nat

/-- `DocumentProcessor.process_document` (`eb1a_processor.py`): extract
text, analyze, generate queries, retrieve, evaluate (with internal
fallback), rate, and build the result; any escaped exception is logged
and re-raised. -/
def processDocumentEB1A (C : EB1ACollab) (file : List Nat) : Except PyErr EB1AResult := do
  let text ← C.extractText file
  let analysis ← evaluateWithLLM C (C.analyzeResume text)
    (performTargetedRetrievals C.kb
      (generateQueries (C.analyzeResume text))).consolidated_citations.length
  pure { visa_category := "EB1A".data,
         relevant_criteria := (C.analyzeResume text).relevant_criteria,
         criteria_count := (C.analyzeResume text).relevant_criteria.length,
         criteria_analysis := analysis,
         success_probability := successProbability (metCountOf analysis) (thresholdOf analysis),
         citation_count := 0 }

/-- `DocumentProcessor.__init__`: raise unless the category is in
`VALID_VISA_CATEGORIES = {"EB1A"}`; the stored `visa_category` is the
hard-coded constant `"EB1A"` regardless of the argument. Returns the
stored category. -/
def documentProcessorInit (visa_category : List Char) : Except PyErr (List Char) :=
  if visa_category = "EB1A".data then .ok ("EB1A".data)
  else .error (.valueError "Invalid visa category. Only EB1A is supported.".data)

/-- Truthiness of a form value (`if file_content:`). -/
def formValEmpty : FormVal → Bool
  | .bytes b => b.isEmpty
  | .str s => s.isEmpty

/-- The bytes handed to the processor for a form value (a text field
would reach the PDF collaborator as its encoded text). -/
def formValBytes : FormVal → List Nat
  | .bytes b => b
  | .str s => utf8Encode s

/-- The handler continuation after multipart parsing
(`lambda_handler_function` in `lambda_handlers.py`): the only key ever
read from the form data is `file`; a missing or empty file is a
`ValueError` (status 400); a `ValueError` from processing gives 400 and
any other exception 500. -/
def handlerFromForm (C : EB1ACollab) (form : FormData) : Nat × Except PyErr EB1AResult :=
  match pyGetLast form "file".data with
  | none => (400, .error (.valueError "No file provided".data))
  | some v =>
    if formValEmpty v then (400, .error (.valueError "No file provided".data))
    else
      match processDocumentEB1A C (formValBytes v) with
      | .ok r => (200, .ok r)
      | .error (.valueError m) => (400, .error (.valueError m))
      | .error e => (500, .error e)

/-! ## Concrete witness and counterexample inputs -/

/-- Concrete event for the claim C7 witness: a JSON POST body with a
text/plain content type. -/
def cexC7 : Event :=
  { body := .str "hello".data, isBase64Encoded := false,
    headers := [("Content-Type".data, "text/plain".data)] }

/-- Collaborators for the first part of the claim C1 counterexample:
every tier's generation succeeds, with distinguishable verdicts. -/
def cexC1a : EvalCollab :=
  { pdfText := .ok "resume".data,
    ragGen := .ok "\x7b\"met_criteria_count\": 1\x7d".data,
    ragCitations := [],
    twoStepRetrieve := .ok [],
    twoStepGen := .ok "\x7b\"met_criteria_count\": 2\x7d".data,
    directGen := fun _ => .error (.otherError "service down".data) }

/-- Collaborators for the second part of the claim C1 counterexample:
tier 1, tier 2 and the first direct call fail; the second direct call
succeeds. -/
def cexC1b : EvalCollab :=
  { pdfText := .ok "resume".data,
    ragGen := .error (.otherError "service down".data),
    ragCitations := [],
    twoStepRetrieve := .ok [],
    twoStepGen := .error (.otherError "service down".data),
    directGen := fun k =>
      if k = 0 then .error (.otherError "service down".data)
      else .ok "\x7b\"met_criteria_count\": 7\x7d".data }

/-- The verdict produced by tier 2's body for the collaborators
`cexC1a`. -/
def wC1Verdict : JVal :=
  .jobj [("met_criteria_count".data, .jnum "2".data),
         ("citations".data, .jarr []),
         ("visa_category".data, .jstr "EB1A".data)]

/-- The counterexample text for claim C2: a json-tagged fence whose
candidate does not parse, followed by a valid JSON object containing an
apostrophe. -/
def cexC2text : List Char :=
  "```json\nhello\n```\n\x7b\"a\": \"it\x27s x\"\x7d".data

/-- The two-citation pair used by the claim C3 witness: texts that agree
on their first 200 characters and diverge only at position 201. -/
def wC3a : ConsCitation :=
  { text := List.replicate 200 'x' ++ ['a'], source := "S3".data, source_location := [],
    score := 5, query_source := "q".data, query_type := "general".data }

/-- Second element of the claim C3 witness pair. -/
def wC3b : ConsCitation :=
  { text := List.replicate 200 'x' ++ ['b'], source := "S3".data, source_location := [],
    score := 7, query_source := "q".data, query_type := "general".data }

/-- A concrete citation for the claim C4 example. -/
def c4Cit (i : Nat) (s : Int) : RawCitation :=
  { text := "case".data ++ (toString i).data, source := "S3".data,
    source_location := [], score := s }

/-- The single query of the claim C4 example. -/
def c4Query : QueryInfo := ⟨"q".data, "general".data⟩

/-- Twelve citations with pairwise distinct scores. -/
def c4List : List RawCitation :=
  [c4Cit 1 3, c4Cit 2 7, c4Cit 3 1, c4Cit 4 12, c4Cit 5 5, c4Cit 6 9,
   c4Cit 7 2, c4Cit 8 11, c4Cit 9 4, c4Cit 10 8, c4Cit 11 6, c4Cit 12 10]

/-- Oracle returning the twelve citations. -/
def c4Oracle : RetrOracle := fun _ _ => .ok c4List

/-- The expected consolidated output: the top 10 by descending score. -/
def c4Expected : List ConsCitation :=
  [annotate c4Query (c4Cit 4 12), annotate c4Query (c4Cit 8 11),
   annotate c4Query (c4Cit 12 10), annotate c4Query (c4Cit 6 9),
   annotate c4Query (c4Cit 10 8), annotate c4Query (c4Cit 2 7),
   annotate c4Query (c4Cit 11 6), annotate c4Query (c4Cit 5 5),
   annotate c4Query (c4Cit 9 4), annotate c4Query (c4Cit 1 3)]

/-- Failing-query oracle for the claim C9 witness. -/
def wC9oracle : RetrOracle := fun t _ =>
  if t = "q1".data then .error "timeout".data
  else .ok [{ text := "text".data, source := "S3".data, source_location := [], score := 4 }]

/-- Queries for the claim C9 witness. -/
def wC9queries : List QueryInfo :=
  [⟨"q1".data, "general".data⟩, ⟨"q2".data, "threshold".data⟩]

/-- Concrete collaborators for the claim C10 witness. -/
def wC10 : EB1ACollab :=
  { extractText := fun _ => .ok "resume text".data,
    analyzeResume := fun _ => { criteria_evidence := [], relevant_criteria := [] },
    kb := fun _ _ => .ok [],
    llmGen := .ok "\x7b\"met_criteria_count\": 3, \"threshold_met\": true\x7d".data,
    directGen := .error (.otherError "down".data) }

/-! ## General lemmas about the string primitives -/

theorem containsSub_iff [DecidableEq α] (pat s : List α) :
    containsSub pat s = true ↔ ∃ i, pat.isPrefixOf (s.drop i) := by
  unfold containsSub
  rw [List.any_eq_true]
  constructor
  · rintro ⟨t, ht, hp⟩
    rw [List.mem_tails] at ht
    obtain ⟨i, rfl⟩ : ∃ i, t = s.drop i := by
      obtain ⟨u, hu⟩ := ht
      exact ⟨u.length, by rw [← hu, List.drop_left]⟩
    exact ⟨i, hp⟩
  · rintro ⟨i, hp⟩
    exact ⟨s.drop i, by rw [List.mem_tails]; exact List.drop_suffix i s, hp⟩

theorem containsSub_eq_false_iff [DecidableEq α] (pat s : List α) :
    containsSub pat s = false ↔ ∀ i, ¬ pat.isPrefixOf (s.drop i) := by
  rw [← Bool.not_eq_true, containsSub_iff]
  push_neg
  simp

theorem head_mem_of_contains [DecidableEq α] (x : α) (pat' s : List α)
    (h : containsSub (x :: pat') s = true) : x ∈ s := by
  rw [containsSub_iff] at h
  obtain ⟨i, hp⟩ := h
  rw [List.isPrefixOf_iff_prefix] at hp
  obtain ⟨t, ht⟩ := hp
  have : x ∈ s.drop i := by rw [← ht]; simp
  exact List.mem_of_mem_drop this

theorem not_contains_of_not_mem [DecidableEq α] (x : α) (pat' s : List α)
    (h : x ∉ s) : containsSub (x :: pat') s = false := by
  by_contra hc
  rw [← Bool.not_eq_true] at hc
  push_neg at hc
  exact h (head_mem_of_contains x pat' s hc)

theorem splitOnSubGo_no_match [DecidableEq α] (pat : List α) (fuel : Nat) (s acc : List α)
    (hf : s.length ≤ fuel)
    (h : ∀ i, ¬ pat.isPrefixOf (s.drop i)) :
    splitOnSubGo pat fuel s acc = [acc.reverse ++ s] := by
  induction fuel generalizing s acc with
  | zero =>
    cases s with
    | nil => simp [splitOnSubGo]
    | cons a s => rfl
  | succ f ih =>
    cases s with
    | nil => simp [splitOnSubGo]
    | cons a s =>
      rw [splitOnSubGo]
      rw [if_neg (by simpa using h 0)]
      rw [ih s (a :: acc) (by simpa using Nat.le_of_succ_le_succ hf)
        (fun i => by simpa using h (i + 1))]
      simp

theorem splitOnSub_of_not_contains [DecidableEq α] (pat s : List α)
    (h : containsSub pat s = false) : splitOnSub pat s = [s] := by
  unfold splitOnSub
  rw [splitOnSubGo_no_match pat s.length s [] le_rfl ((containsSub_eq_false_iff pat s).mp h)]
  simp

theorem splitOnSubGo_fuel [DecidableEq α] (pat : List α) (f f' : Nat) (s acc : List α)
    (h : s.length ≤ f) (h' : s.length ≤ f') :
    splitOnSubGo pat f s acc = splitOnSubGo pat f' s acc := by
  induction f generalizing s acc f' with
  | zero =>
    cases s with
    | nil => cases f' <;> rfl
    | cons a s => simp at h
  | succ f ih =>
    cases s with
    | nil => cases f' <;> rfl
    | cons a s =>
      cases f' with
      | zero => simp at h'
      | succ f'' =>
        rw [splitOnSubGo, splitOnSubGo]
        by_cases hp : pat.isPrefixOf (a :: s) = true
        · rw [if_pos hp, if_pos hp]
          congr 1
          exact ih _ _ _ (by simp only [List.length_drop]; simp at h; omega)
            (by simp only [List.length_drop]; simp at h'; omega)
        · rw [Bool.not_eq_true] at hp
          rw [if_neg (by simp [hp]), if_neg (by simp [hp])]
          exact ih _ _ _ (by simp at h; omega) (by simp at h'; omega)

theorem splitOnSubGo_append [DecidableEq α] (pat pre suf acc : List α) (fuel : Nat)
    (hne : pat ≠ []) (hf : (pre ++ pat ++ suf).length ≤ fuel)
    (h : ∀ i, i < pre.length → ¬ pat.isPrefixOf ((pre ++ pat ++ suf).drop i)) :
    splitOnSubGo pat fuel (pre ++ pat ++ suf) acc =
      (acc.reverse ++ pre) :: splitOnSub pat suf := by
  induction pre generalizing acc fuel with
  | nil =>
    obtain ⟨p, ps, rfl⟩ : ∃ p ps, pat = p :: ps := by
      cases pat with
      | nil => exact absurd rfl hne
      | cons p ps => exact ⟨p, ps, rfl⟩
    cases fuel with
    | zero => simp at hf
    | succ f =>
      simp only [List.nil_append, List.cons_append]
      rw [splitOnSubGo]
      rw [if_pos (by
        rw [← List.cons_append]
        exact List.isPrefixOf_iff_prefix.mpr (List.prefix_append _ _))]
      simp only [List.length_cons, Nat.add_sub_cancel]
      rw [List.drop_left' (by rfl)]
      simp only [List.append_nil]
      unfold splitOnSub
      congr 1
      exact splitOnSubGo_fuel _ _ _ _ _ (by simp at hf ⊢; omega) le_rfl
  | cons a pre ih =>
    cases fuel with
    | zero => simp at hf
    | succ f =>
      rw [List.cons_append, List.cons_append, splitOnSubGo]
      rw [if_neg (by
        have := h 0 (by simp)
        simpa using this)]
      rw [ih (a :: acc) f (by simp at hf ⊢; omega) (fun i hi => by
        have := h (i + 1) (by simpa using Nat.succ_lt_succ hi)
        simpa using this)]
      simp

theorem splitOnSub_append [DecidableEq α] (pat pre suf : List α) (hne : pat ≠ [])
    (h : ∀ i, i < pre.length → ¬ pat.isPrefixOf ((pre ++ pat ++ suf).drop i)) :
    splitOnSub pat (pre ++ pat ++ suf) = pre :: splitOnSub pat suf := by
  unfold splitOnSub
  rw [splitOnSubGo_append pat pre suf [] (pre ++ pat ++ suf).length hne le_rfl h]
  simp only [List.reverse_nil, List.nil_append]
  rfl

theorem splitFirstSubGo_no_match [DecidableEq α] (pat : List α) (s acc : List α)
    (h : ∀ i, ¬ pat.isPrefixOf (s.drop i)) :
    splitFirstSubGo pat s acc = none := by
  induction s generalizing acc with
  | nil => rfl
  | cons a s ih =>
    rw [splitFirstSubGo]
    rw [if_neg (by simpa using h 0)]
    exact ih (a :: acc) (fun i => by simpa using h (i + 1))

theorem splitFirstSubGo_append [DecidableEq α] (pat pre suf acc : List α) (hne : pat ≠ [])
    (h : ∀ i, i < pre.length → ¬ pat.isPrefixOf ((pre ++ pat ++ suf).drop i)) :
    splitFirstSubGo pat (pre ++ pat ++ suf) acc = some (acc.reverse ++ pre, suf) := by
  induction pre generalizing acc with
  | nil =>
    obtain ⟨p, ps, rfl⟩ : ∃ p ps, pat = p :: ps := by
      cases pat with
      | nil => exact absurd rfl hne
      | cons p ps => exact ⟨p, ps, rfl⟩
    simp only [List.nil_append, List.cons_append]
    rw [splitFirstSubGo]
    rw [if_pos (by
      rw [← List.cons_append]
      exact List.isPrefixOf_iff_prefix.mpr (List.prefix_append _ _))]
    simp only [List.length_cons, Nat.add_sub_cancel]
    rw [List.drop_left' (by rfl)]
    simp
  | cons a pre ih =>
    rw [List.cons_append, List.cons_append, splitFirstSubGo]
    rw [if_neg (by
      have := h 0 (by simp)
      simpa using this)]
    rw [ih (a :: acc) (fun i hi => by
      have := h (i + 1) (by simpa using Nat.succ_lt_succ hi)
      simpa using this)]
    simp

theorem splitFirstSub_append [DecidableEq α] (pat pre suf : List α) (hne : pat ≠ [])
    (h : ∀ i, i < pre.length → ¬ pat.isPrefixOf ((pre ++ pat ++ suf).drop i)) :
    splitFirstSub pat (pre ++ pat ++ suf) = some (pre, suf) := by
  unfold splitFirstSub
  rw [splitFirstSubGo_append pat pre suf [] hne h]
  simp

/-- Occurrences fully inside `pre` and occurrences straddling the end of
`pre` are both excluded when `pre` has no occurrence of `pat` and `pat`
avoids the last element of `pre`. -/
theorem no_prefix_inside [DecidableEq α] (pat pre suf : List α)
    (hc : containsSub pat pre = false) (hne : pre ≠ [])
    (hlast : ∀ x ∈ pat, x ≠ pre.getLast hne) :
    ∀ i, i < pre.length → ¬ pat.isPrefixOf ((pre ++ pat ++ suf).drop i) := by
  intro i hi hp
  rw [List.isPrefixOf_iff_prefix] at hp
  by_cases hcase : i + pat.length ≤ pre.length
  · -- the occurrence lies inside pre
    have hp' : pat <+: pre.drop i := by
      have h1 : (pre ++ pat ++ suf).drop i = pre.drop i ++ (pat ++ suf) := by
        rw [List.append_assoc, List.drop_append_of_le_length (le_of_lt hi)]
      rw [h1] at hp
      have h2 : pat = (pre.drop i ++ (pat ++ suf)).take pat.length := by
        rw [List.prefix_iff_eq_take] at hp
        exact hp
      rw [List.take_append_of_le_length (by simp only [List.length_drop]; omega)] at h2
      rw [List.prefix_iff_eq_take]
      exact h2
    have htrue : containsSub pat pre = true := by
      rw [containsSub_iff]
      exact ⟨i, List.isPrefixOf_iff_prefix.mpr hp'⟩
    rw [htrue] at hc
    exact absurd hc (by decide)
  · -- the occurrence covers the last element of pre
    push_neg at hcase
    obtain ⟨t, ht⟩ := hp
    have hprelen : 0 < pre.length := List.length_pos.mpr hne
    have e1 : pat ++ t = (pre ++ pat ++ suf).drop i := ht
    have hk : pre.length - 1 - i < pat.length := by omega
    have hik : i + (pre.length - 1 - i) = pre.length - 1 := by omega
    have c1 : pat[pre.length - 1 - i]? = (pat ++ t)[pre.length - 1 - i]? :=
      (List.getElem?_append_left hk).symm
    have c2 : (pat ++ t)[pre.length - 1 - i]? =
        ((pre ++ pat ++ suf).drop i)[pre.length - 1 - i]? := by rw [e1]
    have c3 : ((pre ++ pat ++ suf).drop i)[pre.length - 1 - i]? =
        (pre ++ pat ++ suf)[i + (pre.length - 1 - i)]? :=
      List.getElem?_drop _ _ _
    have c4 : (pre ++ pat ++ suf)[i + (pre.length - 1 - i)]? = pre[pre.length - 1]? := by
      rw [List.append_assoc, List.getElem?_append_left (by omega), hik]
    have c5 : pre[pre.length - 1]? = some (pre.getLast hne) := by
      rw [List.getElem?_eq_getElem (by omega), List.getLast_eq_getElem]
    have c6 : pat[pre.length - 1 - i]? = some (pat.get ⟨pre.length - 1 - i, hk⟩) :=
      List.getElem?_eq_getElem hk
    have : some (pat.get ⟨pre.length - 1 - i, hk⟩) = some (pre.getLast hne) := by
      rw [← c6, c1, c2, c3, c4, c5]
    exact hlast (pat.get ⟨pre.length - 1 - i, hk⟩) (List.getElem_mem hk) (Option.some.inj this)

/-! ## Claim C5: the score rater -/

/-- Claim C5: the EB1A rating is High when thresholdMet and the met count
is at least 5, Moderate when thresholdMet and the count is below 5, Low
when not thresholdMet and the count is at least 2, Very Low otherwise;
in particular 6/true gives High, 3/true Moderate, 2/false Low and
0 (with the threshold unmet) Very Low, each with its fixed explanation
template parameterized by the count. -/
theorem claim_C5 :
    (∀ m : Int, ∀ t : Bool, t = true → 5 ≤ m →
      (successProbability m t).1 = "High".data) ∧
    (∀ m : Int, ∀ t : Bool, t = true → m < 5 →
      (successProbability m t).1 = "Moderate".data) ∧
    (∀ m : Int, ∀ t : Bool, t = false → 2 ≤ m →
      (successProbability m t).1 = "Low".data) ∧
    (∀ m : Int, ∀ t : Bool, t = false → m < 2 →
      (successProbability m t).1 = "Very Low".data) ∧
    successProbability 6 true =
      ("High".data, "Strong case meeting 6 criteria (only 3 required)".data) ∧
    successProbability 3 true =
      ("Moderate".data, "Meets minimum threshold of 3 criteria with 3 criteria satisfied".data) ∧
    successProbability 2 false =
      ("Low".data, "Nearly meets threshold with 2 criteria (3 required)".data) ∧
    successProbability 0 false =
      ("Very Low".data, "Only meets 0 criteria out of 3 required".data) := by
  refine ⟨?_, ?_, ?_, ?_, by decide, by decide, by decide, by decide⟩
  · intro m t ht hm
    subst ht
    unfold successProbability
    rw [if_pos ⟨rfl, hm⟩]
  · intro m t ht hm
    subst ht
    unfold successProbability
    rw [if_neg (fun hcon => absurd hcon.2 (by omega)), if_pos rfl]
  · intro m t ht hm
    subst ht
    unfold successProbability
    rw [if_neg (fun hcon => by simpa using hcon.1), if_neg (by simp), if_pos hm]
  · intro m t ht hm
    subst ht
    unfold successProbability
    rw [if_neg (fun hcon => by simpa using hcon.1), if_neg (by simp),
      if_neg (fun hcon => absurd hcon (by omega))]

/-- Witness for claim C5 at a concrete input. -/
theorem claim_C5_witness : (successProbability 7 true).1 = "High".data :=
  claim_C5.1 7 true rfl (by norm_num)

/-! ## Claim C7: non-multipart content types -/

/-- Claim C7: whenever the effective content-type header value does not
start with multipart/form-data, parse_multipart fails with a ValueError
(the single handled validation-error class, reported as such by the
handler as a 400), and never lets any other exception class escape. -/
theorem claim_C7 (event : Event)
    (h : startsWith "multipart/form-data".data
      (headerGet event.headers "content-type".data) = false) :
    ∃ m, parse_multipart event = Except.error (PyErr.valueError m) := by
  have hpwb : ∀ bs, parse_with_body event.headers bs =
      .error (PyErr.valueError
        "Invalid content type. Expected multipart/form-data".data) := by
    intro bs
    unfold parse_with_body
    simp only [h, Bool.false_eq_true, not_false_eq_true, if_true]
    rfl
  have hinner : ∃ e, parse_multipart_inner event = Except.error e := by
    unfold parse_multipart_inner
    cases hb : event.isBase64Encoded with
    | false =>
      cases hbody : event.body with
      | str s =>
        simp only [hb, hbody, if_false, Bool.false_eq_true, if_neg]
        simp only [bind, Except.bind, pure, Except.pure]
        exact ⟨_, hpwb _⟩
      | bytes bs =>
        simp only [hb, hbody, Bool.false_eq_true, if_false, if_neg]
        simp only [bind, Except.bind, pure, Except.pure]
        exact ⟨_, hpwb _⟩
    | true =>
      cases hbody : event.body with
      | str s =>
        cases hdec : b64decode s with
        | ok bs =>
          simp only [hb, hbody, hdec, if_true]
          simp only [bind, Except.bind, pure, Except.pure]
          exact ⟨_, hpwb _⟩
        | error e =>
          simp only [hb, hbody, hdec, if_true]
          simp only [bind, Except.bind, pure, Except.pure]
          exact ⟨_, rfl⟩
      | bytes bs =>
        cases hdec : b64decode (bs.map Char.ofNat) with
        | ok bs' =>
          simp only [hb, hbody, hdec, if_true]
          simp only [bind, Except.bind, pure, Except.pure]
          exact ⟨_, hpwb _⟩
        | error e =>
          simp only [hb, hbody, hdec, if_true]
          simp only [bind, Except.bind, pure, Except.pure]
          exact ⟨_, rfl⟩
  obtain ⟨e, he⟩ := hinner
  unfold parse_multipart
  rw [he]
  exact ⟨_, rfl⟩

/-- Witness for claim C7 at a concrete event. -/
theorem claim_C7_witness :
    startsWith "multipart/form-data".data
      (headerGet cexC7.headers "content-type".data) = false ∧
    ∃ m, parse_multipart cexC7 = Except.error (PyErr.valueError m) :=
  ⟨by decide, claim_C7 cexC7 (by decide)⟩

/-! ## Claim C1: the fallback orchestration -/

/-- Claim C1 counterexample. With every tier's generation succeeding, the
code's final verdict is tier 2's (met count 2), not tier 1's (met count
1) as the claimed tier-1-first chain predicts -- tier 1 is never
attempted. And when tier 2 and the first tier-3 call fail, the code
retries tier 3 and succeeds with the second call's verdict (met count 7)
where the claimed never-retry chain propagates a fatal error. -/
theorem claim_C1_counterexample :
    Except.map (fun r => metCountOf r.criteria_analysis) (processDocumentLF cexC1a) =
      .ok 2 ∧
    Except.map metCountOf (processDocumentClaimed cexC1a) = .ok 1 ∧
    Except.map (fun r => metCountOf r.criteria_analysis) (processDocumentLF cexC1b) =
      .ok 7 ∧
    processDocumentClaimed cexC1b = .error (.otherError "service down".data) := by
  refine ⟨?_, ?_, ?_, ?_⟩ <;> rfl

/-- First projection of `_evaluate_against_criteria`'s result. -/
theorem evaluateAgainstCriteriaLF_fst (C : EvalCollab) (k : Nat) :
    (evaluateAgainstCriteriaLF C k).1 = tier3Body C k := rfl

/-- Evaluation of `process_document` (`lambda_function.py`) once PDF
extraction has succeeded: tier 2's body, then the first direct attempt,
then the second direct attempt, the last failure being fatal. -/
theorem processDocumentLF_eq (C : EvalCollab) (t : List Char) (hpdf : C.pdfText = .ok t) :
    processDocumentLF C =
      (match tier2Body C with
      | .ok v => .ok (lfBuild v "RAG".data)
      | .error _ =>
        match tier3Body C 0 with
        | .ok v => .ok (lfBuild v "RAG".data)
        | .error _ =>
          match tier3Body C 1 with
          | .ok v => .ok (lfBuild v "direct".data)
          | .error e => .error e) := by
  unfold processDocumentLF
  rw [hpdf]
  cases h2 : tier2Body C with
  | ok v =>
    rw [show retrieveAndGenerateTwoStep C 0 = (Except.ok v, 0) from by
      unfold retrieveAndGenerateTwoStep; rw [h2]]
  | error e2 =>
    cases h30 : tier3Body C 0 with
    | ok v =>
      rw [show retrieveAndGenerateTwoStep C 0 = (Except.ok v, 1) from by
        unfold retrieveAndGenerateTwoStep evaluateAgainstCriteriaLF; rw [h2, h30]]
    | error e30 =>
      rw [show retrieveAndGenerateTwoStep C 0 = (Except.error e30, 1) from by
        unfold retrieveAndGenerateTwoStep evaluateAgainstCriteriaLF; rw [h2, h30]]
      show lfFallback C 1 = _
      unfold lfFallback
      rw [evaluateAgainstCriteriaLF_fst]

/-- Claim C1 amended: in `process_document` of `lambda_function.py` the
tier-1 method `_retrieve_and_generate` is defined but never invoked; the
chain actually run is: tier 2's body, then (inside tier 2's own handler)
a first tier-3 attempt, then (in `process_document`'s handler) a second
tier-3 attempt whose failure is fatal; whenever tier 2's body succeeds
the final verdict is its output. -/
theorem claim_C1_amended (C : EvalCollab) :
    Except.map (fun r => r.criteria_analysis) (processDocumentLF C) =
      processDocumentAmendedSpec C ∧
    (∀ g cits, processDocumentLF { C with ragGen := g, ragCitations := cits } =
      processDocumentLF C) ∧
    (∀ v txt, C.pdfText = .ok txt → tier2Body C = .ok v →
      Except.map (fun r => r.criteria_analysis) (processDocumentLF C) = .ok v) := by
  refine ⟨?_, ?_, ?_⟩
  · unfold processDocumentAmendedSpec
    cases hpdf : C.pdfText with
    | error e =>
      unfold processDocumentLF
      rw [hpdf]
      rfl
    | ok t =>
      rw [processDocumentLF_eq C t hpdf]
      cases tier2Body C with
      | ok v => rfl
      | error e2 =>
        cases tier3Body C 0 with
        | ok v => rfl
        | error e30 =>
          cases tier3Body C 1 with
          | ok v => rfl
          | error e31 => rfl
  · intro g cits
    rfl
  · intro v txt hpdf h2
    rw [processDocumentLF_eq C txt hpdf, h2]
    rfl

/-- Witness for claim C1's amended theorem at concrete collaborators. -/
theorem claim_C1_amended_witness :
    Except.map (fun r => r.criteria_analysis) (processDocumentLF cexC1a) =
      processDocumentAmendedSpec cexC1a ∧
    Except.map (fun r => r.criteria_analysis) (processDocumentLF cexC1a) =
      .ok wC1Verdict :=
  ⟨(claim_C1_amended cexC1a).1,
   (claim_C1_amended cexC1a).2.2 wC1Verdict "resume".data rfl rfl⟩

/-! ## Claim C2: the JSON extraction strategy order -/

/-- Claim C2 counterexample. On this text strategy 1 applies and its
candidate fails to parse; under the claimed order a later strategy would
recover the valid trailing JSON object, but the code jumps directly to
the repair pass, which corrupts the apostrophe and fails, so the two
procedures disagree. -/
theorem claim_C2_counterexample :
    extractJsonClaimed cexC2text = .ok "\x7b\"a\": \"it\x27s x\"\x7d".data ∧
    extract_json cexC2text = .error .failed ∧
    extract_json cexC2text ≠ extractJsonClaimed cexC2text := by
  refine ⟨rfl, rfl, ?_⟩
  intro h
  rw [show extract_json cexC2text = .error .failed from rfl] at h
  rw [show extractJsonClaimed cexC2text = .ok "\x7b\"a\": \"it\x27s x\"\x7d".data from rfl] at h
  cases h

/-- Claim C2 amended: the strategies are ordered by applicability only;
when an applicable strategy's candidate fails to parse, the extractor
skips every remaining strategy and goes directly to the repair pass
(single quotes replaced by double quotes in the first-brace-to-last-brace
substring of the whole text, which coincides with step 3's candidate),
and fails when that repaired candidate does not parse either. -/
theorem claim_C2_amended (text : List Char) :
    extract_json text = extractJsonAmended text := by
  unfold extract_json extractJsonAmended extractTry
  by_cases h1 : containsSub fenceJson text = true
  · simp only [h1, if_true]
    by_cases hv : jsonValid (stage1Candidate text) = true
    · simp only [hv, if_true]
    · rw [Bool.not_eq_true] at hv
      simp only [hv, Bool.false_eq_true, if_false]
  · rw [Bool.not_eq_true] at h1
    simp only [h1, Bool.false_eq_true, if_false]
    by_cases h2 : containsSub fence text = true
    · simp only [h2, if_true]
      cases hh : (stage2Blocks text).head? with
      | some b =>
        by_cases hv : jsonValid b = true
        · simp only [hv, if_true]
        · rw [Bool.not_eq_true] at hv
          simp only [hv, Bool.false_eq_true, if_false]
      | none =>
        cases hfi : findIdx '{' text with
        | some i =>
          cases hri : rfindIdx '}' text with
          | some j =>
            by_cases hv : jsonValid (pySlice text i (j + 1)) = true
            · simp only [hv, if_true]
            · rw [Bool.not_eq_true] at hv
              simp only [hv, Bool.false_eq_true, if_false]
          | none => rfl
        | none =>
          cases hri : rfindIdx '}' text with
          | some j => rfl
          | none => rfl
    · rw [Bool.not_eq_true] at h2
      simp only [h2, Bool.false_eq_true, if_false]
      cases hfi : findIdx '{' text with
      | some i =>
        cases hri : rfindIdx '}' text with
        | some j =>
          by_cases hv : jsonValid (pySlice text i (j + 1)) = true
          · simp only [hv, if_true]
          · rw [Bool.not_eq_true] at hv
            simp only [hv, Bool.false_eq_true, if_false]
        | none => rfl
      | none =>
        cases hri : rfindIdx '}' text with
        | some j => rfl
        | none => rfl

/-! ## The consolidation loop: dedup lemmas -/

theorem dedupPair_append (seen : List (List Char)) (acc l1 l2 : List ConsCitation) :
    dedupPair seen acc (l1 ++ l2) =
      dedupPair (dedupPair seen acc l1).1 (dedupPair seen acc l1).2 l2 := by
  induction l1 generalizing seen acc with
  | nil => rfl
  | cons c cs ih =>
    simp only [List.cons_append, dedupPair]
    by_cases hk : keyMem (c.text.take 200) seen = true
    · simp only [hk, if_true]
      exact ih seen acc
    · rw [Bool.not_eq_true] at hk
      simp only [hk, Bool.false_eq_true, if_false]
      exact ih _ _

theorem consolidateLoop_go (oracle : RetrOracle) (queries : List QueryInfo)
    (st : ConsLoopState) :
    (queries.foldl (consLoopStep oracle) st).all_results =
      st.all_results ++ queries.map
        (fun q => (q.query_type, retrieveModel oracle q.query_text (numResultsFor q))) ∧
    ((queries.foldl (consLoopStep oracle) st).seen,
     (queries.foldl (consLoopStep oracle) st).consolidated) =
      dedupPair st.seen st.consolidated
        (queries.flatMap (fun q =>
          (retrieveModel oracle q.query_text (numResultsFor q)).citations.map (annotate q))) := by
  induction queries generalizing st with
  | nil => simp [dedupPair]
  | cons q qs ih =>
    simp only [List.foldl_cons, List.flatMap_cons, List.map_cons]
    obtain ⟨ih1, ih2⟩ := ih (consLoopStep oracle st q)
    refine ⟨?_, ?_⟩
    · rw [ih1]
      simp [consLoopStep]
    · rw [ih2, dedupPair_append]
      simp [consLoopStep]

theorem consolidateLoop_all_results (oracle : RetrOracle) (queries : List QueryInfo) :
    (consolidateLoop oracle queries).all_results =
      queries.map (fun q => (q.query_type, retrieveModel oracle q.query_text (numResultsFor q))) := by
  have h := (consolidateLoop_go oracle queries ⟨[], [], []⟩).1
  simpa [consolidateLoop] using h

theorem consolidateLoop_consolidated_pair (oracle : RetrOracle) (queries : List QueryInfo) :
    ((consolidateLoop oracle queries).seen, (consolidateLoop oracle queries).consolidated) =
      dedupPair [] [] (flatCitations oracle queries) := by
  have h := (consolidateLoop_go oracle queries ⟨[], [], []⟩).2
  simpa [consolidateLoop, flatCitations] using h

theorem specDedupF_fuel (f f' : Nat) (l : List ConsCitation)
    (h : l.length ≤ f) (h' : l.length ≤ f') :
    specDedupF f l = specDedupF f' l := by
  induction f generalizing l f' with
  | zero =>
    cases l with
    | nil => cases f' <;> rfl
    | cons c cs => simp at h
  | succ f ih =>
    cases l with
    | nil => cases f' <;> rfl
    | cons c cs =>
      cases f' with
      | zero => simp at h'
      | succ f'' =>
        simp only [specDedupF]
        congr 1
        exact ih _ _ (le_trans (List.length_filter_le _ _) (by simp at h; omega))
          (le_trans (List.length_filter_le _ _) (by simp at h'; omega))

theorem specDedup_cons (c : ConsCitation) (cs : List ConsCitation) :
    specDedup (c :: cs) =
      c :: specDedup (cs.filter (fun d => decide (d.text.take 200 ≠ c.text.take 200))) := by
  unfold specDedup
  simp only [List.length_cons, specDedupF]
  congr 1
  exact specDedupF_fuel _ _ _ (List.length_filter_le _ _) le_rfl

theorem dedupPair_spec (seen : List (List Char)) (acc l : List ConsCitation) :
    (dedupPair seen acc l).2 =
      acc ++ specDedup (l.filter (fun c => !(keyMem (c.text.take 200) seen))) := by
  induction l generalizing seen acc with
  | nil => simp [dedupPair, specDedup, specDedupF]
  | cons c cs ih =>
    simp only [dedupPair, List.filter_cons]
    by_cases hk : keyMem (c.text.take 200) seen = true
    · simp only [hk, if_true, Bool.not_true, Bool.false_eq_true, if_false]
      exact ih seen acc
    · rw [Bool.not_eq_true] at hk
      simp only [hk, Bool.false_eq_true, if_false, Bool.not_false, if_true]
      have hfe : cs.filter (fun d => !(keyMem (d.text.take 200) (c.text.take 200 :: seen))) =
          (cs.filter (fun d => !(keyMem (d.text.take 200) seen))).filter
            (fun d => decide (d.text.take 200 ≠ c.text.take 200)) := by
        rw [List.filter_filter]
        apply List.filter_congr
        intro d _
        by_cases hd : d.text.take 200 = c.text.take 200
        · have h1 : decide (c.text.take 200 = d.text.take 200) = true :=
            decide_eq_true hd.symm
          have h2 : decide (d.text.take 200 ≠ c.text.take 200) = false := by
            simp [hd]
          simp [keyMem, List.any_cons, h1, h2]
        · have h1 : decide (c.text.take 200 = d.text.take 200) = false :=
            decide_eq_false (fun h' => hd h'.symm)
          have h2 : decide (d.text.take 200 ≠ c.text.take 200) = true :=
            decide_eq_true hd
          simp [keyMem, List.any_cons, h1, h2]
      rw [ih (c.text.take 200 :: seen) (acc ++ [c]), hfe, specDedup_cons]
      simp [List.append_assoc]

theorem consolidated_eq_specDedup (oracle : RetrOracle) (queries : List QueryInfo) :
    (consolidateLoop oracle queries).consolidated = specDedup (flatCitations oracle queries) := by
  have h := congrArg Prod.snd (consolidateLoop_consolidated_pair oracle queries)
  simp only at h
  rw [h, dedupPair_spec]
  simp [keyMem]

/-! ## specDedup structural properties -/

theorem specDedup_sublist_n (n : Nat) : ∀ (l : List ConsCitation), l.length ≤ n →
    List.Sublist (specDedup l) l := by
  induction n with
  | zero =>
    intro l h
    have hl : l = [] := List.length_eq_zero.mp (Nat.le_zero.mp h)
    subst hl
    simp [specDedup, specDedupF]
  | succ n ih =>
    intro l h
    cases l with
    | nil => simp [specDedup, specDedupF]
    | cons c cs =>
      rw [specDedup_cons]
      refine List.Sublist.cons₂ c ?_
      exact (ih _ (le_trans (List.length_filter_le _ _) (by simp at h; omega))).trans
        (List.filter_sublist cs)

theorem specDedup_sublist (l : List ConsCitation) : List.Sublist (specDedup l) l :=
  specDedup_sublist_n l.length l le_rfl

theorem specDedup_pairwise_n (n : Nat) : ∀ (l : List ConsCitation), l.length ≤ n →
    (specDedup l).Pairwise (fun a b => a.text.take 200 ≠ b.text.take 200) := by
  induction n with
  | zero =>
    intro l h
    have hl : l = [] := List.length_eq_zero.mp (Nat.le_zero.mp h)
    subst hl
    simp [specDedup, specDedupF]
  | succ n ih =>
    intro l h
    cases l with
    | nil => simp [specDedup, specDedupF]
    | cons c cs =>
      rw [specDedup_cons]
      refine List.Pairwise.cons ?_
        (ih _ (le_trans (List.length_filter_le _ _) (by simp at h; omega)))
      intro b hb
      have hbmem : b ∈ cs.filter (fun d => decide (d.text.take 200 ≠ c.text.take 200)) :=
        (specDedup_sublist _).mem hb
      have hbdec := List.of_mem_filter hbmem
      intro heq
      exact (of_decide_eq_true hbdec) heq.symm

theorem specDedup_covers_n (n : Nat) : ∀ (l : List ConsCitation), l.length ≤ n →
    ∀ c ∈ l, ∃ d ∈ specDedup l, d.text.take 200 = c.text.take 200 := by
  induction n with
  | zero =>
    intro l h
    have hl : l = [] := List.length_eq_zero.mp (Nat.le_zero.mp h)
    subst hl
    simp
  | succ n ih =>
    intro l h x hx
    cases l with
    | nil => simp at hx
    | cons c cs =>
      rw [specDedup_cons]
      rcases List.mem_cons.mp hx with rfl | hx'
      · exact ⟨x, List.mem_cons_self _ _, rfl⟩
      · by_cases hkey : x.text.take 200 = c.text.take 200
        · exact ⟨c, List.mem_cons_self _ _, hkey.symm⟩
        · have hxf : x ∈ cs.filter (fun d => decide (d.text.take 200 ≠ c.text.take 200)) :=
            List.mem_filter.mpr ⟨hx', decide_eq_true hkey⟩
          obtain ⟨d, hd, hdk⟩ := ih _
            (le_trans (List.length_filter_le _ _) (by simp at h; omega)) x hxf
          exact ⟨d, List.mem_cons_of_mem _ hd, hdk⟩

/-! ## Claim C3: deduplication by 200-character fingerprint -/

/-- Claim C3: the consolidation loop's pre-sort citation list is exactly
the first-occurrence-per-fingerprint filtering of the flattened
retrieval results in query order; two citations are duplicates exactly
when the first 200 characters of their texts agree (the tails are
ignored); the kept representatives are pairwise distinct in fingerprint,
form a sublist (order preserved), and cover every retrieved citation's
fingerprint. -/
theorem claim_C3 (oracle : RetrOracle) (queries : List QueryInfo) :
    (consolidateLoop oracle queries).consolidated =
      specDedup (flatCitations oracle queries) ∧
    (∀ c d : ConsCitation,
      specDedup [c, d] =
        if c.text.take 200 = d.text.take 200 then [c] else [c, d]) ∧
    (∀ l : List ConsCitation,
      (specDedup l).Pairwise (fun a b => a.text.take 200 ≠ b.text.take 200)) ∧
    (∀ l : List ConsCitation, List.Sublist (specDedup l) l) ∧
    (∀ l : List ConsCitation, ∀ c ∈ l,
      ∃ d ∈ specDedup l, d.text.take 200 = c.text.take 200) := by
  refine ⟨consolidated_eq_specDedup oracle queries, ?_, ?_, ?_, ?_⟩
  · intro c d
    rw [specDedup_cons]
    by_cases hk : c.text.take 200 = d.text.take 200
    · rw [if_pos hk]
      simp [specDedup, specDedupF, hk.symm]
    · rw [if_neg hk]
      have hne : d.text.take 200 ≠ c.text.take 200 := fun he => hk he.symm
      simp [specDedup, specDedupF, hne]
  · intro l
    exact specDedup_pairwise_n l.length l le_rfl
  · intro l
    exact specDedup_sublist l
  · intro l
    exact specDedup_covers_n l.length l le_rfl

/-- Witness for claim C3: two citations that differ only beyond the
200th character are deduplicated to the first. -/
theorem claim_C3_witness :
    wC3a.text ≠ wC3b.text ∧ specDedup [wC3a, wC3b] = [wC3a] := by
  refine ⟨by decide, ?_⟩
  rw [(claim_C3 (fun _ _ => .ok []) []).2.1 wC3a wC3b]
  rw [if_pos (by decide)]

/-! ## Claim C4: rank by score, stable, cap 10 -/

theorem insertDesc_mem (c x : ConsCitation) (l : List ConsCitation) :
    x ∈ insertDesc c l ↔ x = c ∨ x ∈ l := by
  induction l with
  | nil => simp [insertDesc]
  | cons d ds ih =>
    rw [insertDesc]
    by_cases hs : d.score ≤ c.score
    · rw [if_pos hs]
      exact List.mem_cons
    · rw [if_neg hs]
      simp only [List.mem_cons, ih]
      tauto

theorem insertDesc_pairwise (c : ConsCitation) (l : List ConsCitation)
    (h : l.Pairwise (fun a b => b.score ≤ a.score)) :
    (insertDesc c l).Pairwise (fun a b => b.score ≤ a.score) := by
  induction l with
  | nil => simp [insertDesc]
  | cons d ds ih =>
    rw [insertDesc]
    rw [List.pairwise_cons] at h
    by_cases hs : d.score ≤ c.score
    · rw [if_pos hs]
      refine List.Pairwise.cons ?_ (List.Pairwise.cons h.1 h.2)
      intro b hb
      rcases List.mem_cons.mp hb with rfl | hb'
      · exact hs
      · exact le_trans (h.1 b hb') hs
    · rw [if_neg hs]
      push_neg at hs
      refine List.Pairwise.cons ?_ (ih h.2)
      intro b hb
      rcases (insertDesc_mem c b ds).mp hb with rfl | hb'
      · exact le_of_lt hs
      · exact h.1 b hb'

theorem sortDesc_sorted (l : List ConsCitation) :
    (sortDesc l).Pairwise (fun a b => b.score ≤ a.score) := by
  induction l with
  | nil => simp [sortDesc]
  | cons c cs ih => exact insertDesc_pairwise c (sortDesc cs) ih

theorem insertDesc_filter_eq (c : ConsCitation) (l : List ConsCitation) (s : Int)
    (hc : c.score = s) :
    (insertDesc c l).filter (fun d => decide (d.score = s)) =
      c :: l.filter (fun d => decide (d.score = s)) := by
  induction l with
  | nil => simp [insertDesc, hc]
  | cons d ds ih =>
    rw [insertDesc]
    by_cases hs : d.score ≤ c.score
    · rw [if_pos hs]
      simp [List.filter_cons, hc]
    · rw [if_neg hs]
      push_neg at hs
      have hd : ¬ (d.score = s) := by omega
      simp only [List.filter_cons]
      simp only [hd, decide_False, Bool.false_eq_true, if_false]
      exact ih

theorem insertDesc_filter_ne (c : ConsCitation) (l : List ConsCitation) (s : Int)
    (hc : ¬ c.score = s) :
    (insertDesc c l).filter (fun d => decide (d.score = s)) =
      l.filter (fun d => decide (d.score = s)) := by
  induction l with
  | nil => simp [insertDesc, hc]
  | cons d ds ih =>
    rw [insertDesc]
    by_cases hs : d.score ≤ c.score
    · rw [if_pos hs]
      simp only [List.filter_cons]
      simp [hc]
    · rw [if_neg hs]
      simp only [List.filter_cons]
      by_cases hd : d.score = s
      · simp only [hd, decide_True, if_true]
        rw [ih]
      · simp only [hd, decide_False, Bool.false_eq_true, if_false]
        exact ih

theorem sortDesc_stable (l : List ConsCitation) (s : Int) :
    (sortDesc l).filter (fun d => decide (d.score = s)) =
      l.filter (fun d => decide (d.score = s)) := by
  induction l with
  | nil => rfl
  | cons c cs ih =>
    rw [sortDesc]
    by_cases hc : c.score = s
    · rw [insertDesc_filter_eq c _ s hc, ih]
      simp [List.filter_cons, hc]
    · rw [insertDesc_filter_ne c _ s hc, ih]
      simp [List.filter_cons, hc]

/-- Claim C4: the consolidated output is the deduplicated list sorted by
score descending with a stable sort (the sort preserves, for every score
value, the original query-order sequence of citations carrying it, so
ties keep their relative order) and truncated to at most 10 citations;
and on 12 citations with distinct scores the output is exactly the top
10 by descending score. -/
theorem claim_C4 (oracle : RetrOracle) (queries : List QueryInfo) :
    (performTargetedRetrievals oracle queries).consolidated_citations =
      (sortDesc (consolidateLoop oracle queries).consolidated).take 10 ∧
    (performTargetedRetrievals oracle queries).consolidated_citations.length ≤ 10 ∧
    (∀ l : List ConsCitation, (sortDesc l).Pairwise (fun a b => b.score ≤ a.score)) ∧
    (∀ (l : List ConsCitation) (s : Int),
      (sortDesc l).filter (fun d => decide (d.score = s)) =
        l.filter (fun d => decide (d.score = s))) ∧
    (performTargetedRetrievals c4Oracle [c4Query]).consolidated_citations = c4Expected := by
  refine ⟨rfl, ?_, fun l => sortDesc_sorted l, fun l s => sortDesc_stable l s, by decide⟩
  have hlen : (performTargetedRetrievals oracle queries).consolidated_citations =
      (sortDesc (consolidateLoop oracle queries).consolidated).take 10 := rfl
  rw [hlen, List.length_take]
  exact min_le_left _ _

/-! ## Claim C9: per-query failure isolation -/

/-- Claim C9: a retrieval-collaborator failure for one query never
aborts the others: the failing query's stored record is an empty
citation list with the error marker, every query's record is stored in
the per-type results, consolidation proceeds over the flattened
citations (the failing query contributing its recorded empty list), and
perform_targeted_retrievals itself returns normally. -/
theorem claim_C9 (oracle : RetrOracle) (queries : List QueryInfo)
    (q : QueryInfo) (e : List Char) (hq : q ∈ queries)
    (herr : oracle q.query_text (numResultsFor q) = .error e) :
    performTargetedRetrievalsE oracle queries =
      .ok (performTargetedRetrievals oracle queries) ∧
    retrieveModel oracle q.query_text (numResultsFor q) =
      { query := q.query_text, error := some e, citation_count := 0, citations := [] } ∧
    (consolidateLoop oracle queries).all_results =
      queries.map (fun q' =>
        (q'.query_type, retrieveModel oracle q'.query_text (numResultsFor q'))) ∧
    (consolidateLoop oracle queries).consolidated =
      specDedup (flatCitations oracle queries) := by
  refine ⟨rfl, ?_, consolidateLoop_all_results oracle queries,
    consolidated_eq_specDedup oracle queries⟩
  unfold retrieveModel
  rw [herr]

/-- Witness for claim C9 at a concrete failing oracle. -/
theorem claim_C9_witness :
    performTargetedRetrievalsE wC9oracle wC9queries =
      .ok (performTargetedRetrievals wC9oracle wC9queries) ∧
    retrieveModel wC9oracle (QueryInfo.query_text ⟨"q1".data, "general".data⟩)
        (numResultsFor ⟨"q1".data, "general".data⟩) =
      { query := (QueryInfo.query_text ⟨"q1".data, "general".data⟩), error := some "timeout".data,
        citation_count := 0, citations := [] } ∧
    (consolidateLoop wC9oracle wC9queries).all_results =
      wC9queries.map (fun q' =>
        (q'.query_type, retrieveModel wC9oracle q'.query_text (numResultsFor q'))) ∧
    (consolidateLoop wC9oracle wC9queries).consolidated =
      specDedup (flatCitations wC9oracle wC9queries) :=
  claim_C9 wC9oracle wC9queries ⟨"q1".data, "general".data⟩ "timeout".data
    (by decide) (by decide)

/-! ## Claim C10: the hard-coded EB1A category -/

theorem jSet_ok_jGet_eq (v v' : JVal) (k : List Char) (x : JVal)
    (h : jSet v k x = .ok v') : jGet v' k = some x := by
  cases v with
  | jobj fields =>
    simp only [jSet, Except.ok.injEq] at h
    subst h
    simp only [jGet, pyGetLast, List.filter_append]
    rw [List.filter_cons]
    simp
  | jnull => simp [jSet] at h
  | jbool b => simp [jSet] at h
  | jnum n => simp [jSet] at h
  | jstr s => simp [jSet] at h
  | jarr xs => simp [jSet] at h

theorem jSet_ok_jGet_ne (v v' : JVal) (k k' : List Char) (x : JVal)
    (h : jSet v k x = .ok v') (hne : k' ≠ k) : jGet v' k' = jGet v k' := by
  cases v with
  | jobj fields =>
    simp only [jSet, Except.ok.injEq] at h
    subst h
    simp only [jGet, pyGetLast, List.filter_append]
    rw [List.filter_cons]
    simp only [decide_eq_true_eq]
    rw [if_neg (fun hk => hne hk.symm)]
    simp
  | jnull => simp [jSet] at h
  | jbool b => simp [jSet] at h
  | jnum n => simp [jSet] at h
  | jstr s => simp [jSet] at h
  | jarr xs => simp [jSet] at h

theorem except_bind_ok {α β : Type} (a : α) (f : α → Except PyErr β) :
    (Except.ok a >>= f) = f a := rfl

theorem except_bind_error {α β : Type} (e : PyErr) (f : α → Except PyErr β) :
    ((Except.error e : Except PyErr α) >>= f) = Except.error e := rfl

theorem evaluateAgainstCriteriaEB_visa (C : EB1ACollab) (v : JVal)
    (h : evaluateAgainstCriteriaEB C = .ok v) :
    jGet v "visa_category".data = some (.jstr "EB1A".data) := by
  unfold evaluateAgainstCriteriaEB at h
  cases hg : C.directGen with
  | error e => rw [hg, except_bind_error] at h; cases h
  | ok gen =>
    rw [hg, except_bind_ok] at h
    cases he : extractJsonE gen with
    | error e => rw [he, except_bind_error] at h; cases h
    | ok j =>
      rw [he, except_bind_ok] at h
      cases hl : jsonLoadsE j with
      | error e => rw [hl, except_bind_error] at h; cases h
      | ok v0 =>
        rw [hl, except_bind_ok] at h
        exact jSet_ok_jGet_eq v0 v _ _ h

theorem evalWithLLMBody_visa (C : EB1ACollab) (profile : StructuredProfile)
    (kbCount : Nat) (v : JVal) (h : evalWithLLMBody C profile kbCount = .ok v) :
    jGet v "visa_category".data = some (.jstr "EB1A".data) := by
  unfold evalWithLLMBody at h
  cases hg : C.llmGen with
  | error e => rw [hg, except_bind_error] at h; cases h
  | ok gen =>
    rw [hg, except_bind_ok] at h
    cases he : extractJsonE gen with
    | error e => rw [he, except_bind_error] at h; cases h
    | ok j =>
      rw [he, except_bind_ok] at h
      cases hl : jsonLoadsE j with
      | error e => rw [hl, except_bind_error] at h; cases h
      | ok v0 =>
        rw [hl, except_bind_ok] at h
        cases hs : jSet v0 "visa_category".data (.jstr "EB1A".data) with
        | error e => rw [hs, except_bind_error] at h; cases h
        | ok v1 =>
          rw [hs, except_bind_ok] at h
          rw [jSet_ok_jGet_ne v1 v "evaluation_metadata".data "visa_category".data _ h
            (by decide)]
          exact jSet_ok_jGet_eq v0 v1 _ _ hs

theorem evaluateWithLLM_visa (C : EB1ACollab) (profile : StructuredProfile)
    (kbCount : Nat) (v : JVal) (h : evaluateWithLLM C profile kbCount = .ok v) :
    jGet v "visa_category".data = some (.jstr "EB1A".data) := by
  unfold evaluateWithLLM at h
  cases hb : evalWithLLMBody C profile kbCount with
  | ok v0 =>
    rw [hb] at h
    injection h with h'
    subst h'
    exact evalWithLLMBody_visa C profile kbCount _ hb
  | error e =>
    rw [hb] at h
    exact evaluateAgainstCriteriaEB_visa C v h

/-- Claim C10: for every request the processor completes successfully,
the result's top-level visa_category and the verdict's visa_category
entry are both the constant EB1A, whatever the collaborators do; the
constructor accepts only category strings in the valid set and always
stores the constant EB1A; and the handler never consults any form field
other than file -- so a visa_category form field can never influence the
outcome. -/
theorem claim_C10 :
    (∀ (C : EB1ACollab) (file : List Nat) (r : EB1AResult),
      processDocumentEB1A C file = .ok r →
        r.visa_category = "EB1A".data ∧
        jGet r.criteria_analysis "visa_category".data = some (.jstr "EB1A".data)) ∧
    (∀ cat stored, documentProcessorInit cat = .ok stored → stored = "EB1A".data) ∧
    (∀ (C : EB1ACollab) (form1 form2 : FormData),
      pyGetLast form1 "file".data = pyGetLast form2 "file".data →
        handlerFromForm C form1 = handlerFromForm C form2) := by
  refine ⟨?_, ?_, ?_⟩
  · intro C file r h
    unfold processDocumentEB1A at h
    cases hext : C.extractText file with
    | error e => rw [hext, except_bind_error] at h; cases h
    | ok text =>
      rw [hext, except_bind_ok] at h
      cases hev : evaluateWithLLM C (C.analyzeResume text)
          (performTargetedRetrievals C.kb
            (generateQueries (C.analyzeResume text))).consolidated_citations.length with
      | error e =>
        rw [hev] at h
        cases h
      | ok a =>
        rw [hev] at h
        simp only [except_bind_ok, pure, Except.pure, Except.ok.injEq] at h
        subst h
        exact ⟨rfl, evaluateWithLLM_visa _ _ _ a hev⟩
  · intro cat stored h
    unfold documentProcessorInit at h
    by_cases hc : cat = "EB1A".data
    · rw [if_pos hc] at h
      cases h
      rfl
    · rw [if_neg hc] at h
      cases h
  · intro C f1 f2 h
    unfold handlerFromForm
    rw [h]

/-- Witness for claim C10 at concrete collaborators and a concrete
category string. -/
theorem claim_C10_witness :
    (∃ r, processDocumentEB1A wC10 [1, 2] = .ok r ∧
      r.visa_category = "EB1A".data ∧
      jGet r.criteria_analysis "visa_category".data = some (.jstr "EB1A".data)) ∧
    (∀ stored, documentProcessorInit "EB1A".data = .ok stored → stored = "EB1A".data) := by
  constructor
  · obtain ⟨r, hr⟩ : ∃ r, processDocumentEB1A wC10 [1, 2] = .ok r := ⟨_, rfl⟩
    obtain ⟨h1, h2⟩ := claim_C10.1 wC10 [1, 2] r hr
    exact ⟨r, hr, h1, h2⟩
  · intro stored h
    exact claim_C10.2.1 "EB1A".data stored h

/-! ## Claim C8: idempotence on clean JSON -/

theorem contains_of_contains_superstring [DecidableEq α] (p q s : List α)
    (hpq : p.isPrefixOf q = true) (h : containsSub q s = true) :
    containsSub p s = true := by
  rw [containsSub_iff] at h ⊢
  obtain ⟨i, hi⟩ := h
  refine ⟨i, ?_⟩
  rw [List.isPrefixOf_iff_prefix] at hpq hi ⊢
  exact hpq.trans hi

theorem contains_within [DecidableEq α] (p a b c : List α)
    (h : containsSub p b = true) : containsSub p (a ++ b ++ c) = true := by
  cases hp : p with
  | nil =>
    rw [containsSub_iff]
    exact ⟨0, by simp⟩
  | cons x p' =>
    rw [← hp]
    rw [containsSub_iff] at h ⊢
    obtain ⟨i, hi⟩ := h
    rw [List.isPrefixOf_iff_prefix] at hi
    have hne : p ≠ [] := by rw [hp]; exact List.cons_ne_nil x p'
    have hdropne : b.drop i ≠ [] := by
      intro hd
      rw [hd] at hi
      exact hne (List.prefix_nil.mp hi)
    have hib : i ≤ b.length := by
      by_contra hgt
      push_neg at hgt
      exact hdropne (List.drop_eq_nil_of_le (le_of_lt hgt))
    refine ⟨a.length + i, ?_⟩
    rw [List.isPrefixOf_iff_prefix, List.append_assoc, List.drop_append]
    rw [List.drop_append_of_le_length hib]
    exact hi.trans (List.prefix_append _ _)

theorem findIdx_go [DecidableEq α] (a : α) (xs ys : List α) (i : Nat)
    (hx : ∀ x ∈ xs, x ≠ a) (hy : ys.head? = some a) :
    List.findIdx? (fun x => decide (x = a)) (xs ++ ys) i = some (i + xs.length) := by
  induction xs generalizing i with
  | nil =>
    cases ys with
    | nil => cases hy
    | cons c t =>
      injection hy with hc
      subst hc
      simp [List.findIdx?_cons]
  | cons x xs ih =>
    rw [List.cons_append, List.findIdx?_cons]
    rw [if_neg (by simp [hx x (List.mem_cons_self x xs)])]
    rw [ih (i + 1) (fun y hy' => hx y (List.mem_cons_of_mem _ hy'))]
    congr 1
    simp only [List.length_cons]
    omega

theorem findIdx_concat [DecidableEq α] (a : α) (xs ys : List α)
    (hx : ∀ x ∈ xs, x ≠ a) (hy : ys.head? = some a) :
    findIdx a (xs ++ ys) = some xs.length := by
  unfold findIdx
  rw [findIdx_go a xs ys 0 hx hy]
  simp

theorem pyWs_ne_brace (c : Char) (h : pyWs c = true) :
    c ≠ '{' ∧ c ≠ '}' := by
  constructor <;> intro hc <;> subst hc <;> simp [pyWs] at h

/-- The central computation for claim C8: a clean JSON object document
surrounded by whitespace, with no code fence anywhere, is returned
verbatim by strategy 3. -/
theorem extract_json_clean (ws1 ws2 obj : List Char)
    (hw1 : ∀ c ∈ ws1, pyWs c = true) (hw2 : ∀ c ∈ ws2, pyWs c = true)
    (hobj : obj ≠ [])
    (hhead : obj.head? = some '{')
    (hlast : obj.getLast? = some '}')
    (hvalid : jsonValid obj = true)
    (hnofence : containsSub fence (ws1 ++ obj ++ ws2) = false) :
    extract_json (ws1 ++ obj ++ ws2) = .ok obj := by
  have hnofj : containsSub fenceJson (ws1 ++ obj ++ ws2) = false := by
    by_contra hc
    rw [← Bool.not_eq_true] at hc
    push_neg at hc
    have := contains_of_contains_superstring fence fenceJson _ (by decide) hc
    rw [this] at hnofence
    cases hnofence
  -- the first brace is at index ws1.length
  have hfi : findIdx '{' (ws1 ++ obj ++ ws2) = some ws1.length := by
    rw [List.append_assoc]
    apply findIdx_concat
    · exact fun x hx => (pyWs_ne_brace x (hw1 x hx)).1
    · cases obj with
      | nil => exact absurd rfl hobj
      | cons c rest =>
        injection hhead with hc
        subst hc
        rfl
  -- the last brace is at index ws1.length + obj.length - 1
  have hri : rfindIdx '}' (ws1 ++ obj ++ ws2) = some (ws1.length + obj.length - 1) := by
    unfold rfindIdx
    have hrev : (ws1 ++ obj ++ ws2).reverse = ws2.reverse ++ (obj.reverse ++ ws1.reverse) := by
      rw [List.reverse_append, List.reverse_append]
    rw [hrev]
    rw [findIdx_go '}' ws2.reverse (obj.reverse ++ ws1.reverse) 0
      (fun x hx => (pyWs_ne_brace x (hw2 x (List.mem_reverse.mp hx))).2)
      (by
        have hone : obj.reverse ≠ [] := by
          intro hr
          exact hobj (by simpa using congrArg List.reverse hr)
        cases hrv : obj.reverse with
        | nil => exact absurd hrv hone
        | cons c rest =>
          have : obj.reverse.head? = some c := by rw [hrv]; rfl
          rw [List.head?_reverse] at this
          rw [hlast] at this
          injection this with hc
          rw [List.cons_append]
          rw [hc]
          rfl)]
    simp only [Nat.zero_add, List.length_reverse, List.length_append, Option.map_some',
      Option.some.injEq]
    have hlen : 0 < obj.length := List.length_pos.mpr hobj
    omega
  have hslice : pySlice (ws1 ++ obj ++ ws2) ws1.length (ws1.length + obj.length - 1 + 1) =
      obj := by
    unfold pySlice
    have hlen : 0 < obj.length := List.length_pos.mpr hobj
    have h1 : ws1.length + obj.length - 1 + 1 = ws1.length + obj.length := by omega
    rw [h1]
    have h2 : ws1.length + obj.length = (ws1 ++ obj).length := by simp
    rw [h2, List.take_left]
    exact List.drop_left ws1 obj
  unfold extract_json extractTry
  rw [hnofj, hnofence, hfi, hri]
  simp only [Bool.false_eq_true, if_false]
  rw [hslice]
  rw [hvalid]
  rfl

/-- Claim C8: extract_json is idempotent on clean input: a string that is
a syntactically valid JSON object document with surrounding whitespace
and no code fences is returned unchanged modulo the surrounding
whitespace, the result parses successfully, and a second application
returns the same result. -/
theorem claim_C8 (ws1 ws2 obj : List Char)
    (hw1 : ∀ c ∈ ws1, pyWs c = true) (hw2 : ∀ c ∈ ws2, pyWs c = true)
    (hobj : obj ≠ [])
    (hhead : obj.head? = some '{')
    (hlast : obj.getLast? = some '}')
    (hvalid : jsonValid obj = true)
    (hnofence : containsSub fence (ws1 ++ obj ++ ws2) = false) :
    extract_json (ws1 ++ obj ++ ws2) = .ok obj ∧
    jsonValid obj = true ∧
    extract_json obj = .ok obj := by
  have hobjfence : containsSub fence obj = false := by
    by_contra hc
    rw [← Bool.not_eq_true] at hc
    push_neg at hc
    rw [contains_within fence ws1 obj ws2 hc] at hnofence
    cases hnofence
  refine ⟨extract_json_clean ws1 ws2 obj hw1 hw2 hobj hhead hlast hvalid hnofence, hvalid, ?_⟩
  have h2 := extract_json_clean [] [] obj (by simp) (by simp) hobj hhead hlast hvalid
    (by simpa using hobjfence)
  simpa using h2

/-- Witness for claim C8 at a concrete clean JSON document. -/
theorem claim_C8_witness :
    extract_json (" ".data ++ "\x7b\"k\": [1, 2]\x7d".data ++ "\n".data) =
      .ok "\x7b\"k\": [1, 2]\x7d".data ∧
    jsonValid "\x7b\"k\": [1, 2]\x7d".data = true ∧
    extract_json "\x7b\"k\": [1, 2]\x7d".data = .ok "\x7b\"k\": [1, 2]\x7d".data :=
  claim_C8 " ".data "\n".data "\x7b\"k\": [1, 2]\x7d".data
    (by decide) (by decide) (by decide) (by decide) (by decide) (by decide) (by decide)

/-! ## Claim C6: helper lemmas on stripping, ASCII and UTF-8 -/

theorem dropWhile_all_false (p : α → Bool) (s : List α) (h : ∀ c ∈ s, p c = false) :
    s.dropWhile p = s := by
  cases s with
  | nil => rfl
  | cons a s =>
    rw [List.dropWhile_cons, h a (by simp)]
    simp

theorem dropWhileEnd_all_false (p : α → Bool) (s : List α) (h : ∀ c ∈ s, p c = false) :
    dropWhileEnd p s = s := by
  unfold dropWhileEnd
  rw [dropWhile_all_false p s.reverse (fun c hc => h c (List.mem_reverse.mp hc))]
  exact List.reverse_reverse s

theorem dropWhile_append_last (p : α → Bool) (A : List α) (x : α) (hx : p x = false) :
    ∃ B, (A ++ [x]).dropWhile p = B ++ [x] := by
  induction A with
  | nil =>
    refine ⟨[], ?_⟩
    simp only [List.nil_append, List.dropWhile_cons, hx]
    simp
  | cons a A ih =>
    by_cases ha : p a = true
    · obtain ⟨B, hB⟩ := ih
      exact ⟨B, by rw [List.cons_append, List.dropWhile_cons, ha]; simpa using hB⟩
    · rw [Bool.not_eq_true] at ha
      exact ⟨a :: A, by rw [List.cons_append, List.dropWhile_cons, ha]; simp⟩

theorem dropWhileEnd_concat_false (p : α → Bool) (A : List α) (x : α) (hx : p x = false) :
    dropWhileEnd p (A ++ [x]) = A ++ [x] := by
  unfold dropWhileEnd
  rw [List.reverse_append, List.reverse_singleton, List.singleton_append,
    List.dropWhile_cons, hx]
  simp

theorem dropWhileEnd_concat_true (p : α → Bool) (A : List α) (x : α) (hx : p x = true) :
    dropWhileEnd p (A ++ [x]) = dropWhileEnd p A := by
  unfold dropWhileEnd
  rw [List.reverse_append, List.reverse_singleton, List.singleton_append,
    List.dropWhile_cons, hx]
  simp

theorem dropWhileEnd_head (p : α → Bool) (x : α) (l : List α) (hx : p x = false) :
    ∃ t, dropWhileEnd p (x :: l) = x :: t := by
  unfold dropWhileEnd
  obtain ⟨B, hB⟩ := dropWhile_append_last p l.reverse x hx
  rw [List.reverse_cons, hB, List.reverse_append, List.reverse_singleton,
    List.singleton_append]
  exact ⟨B.reverse, rfl⟩

theorem pyStrip_cons_ws (c : Char) (s : List Char) (hc : pyWs c = true) :
    pyStrip (c :: s) = pyStrip s := by
  unfold pyStrip
  rw [List.dropWhile_cons, hc]
  simp

theorem pyStrip_no_ws (s : List Char) (h : ∀ c ∈ s, pyWs c = false) :
    pyStrip s = s := by
  unfold pyStrip
  rw [dropWhile_all_false pyWs s h, dropWhileEnd_all_false pyWs s h]

theorem pyStrip_sandwich (x y : Char) (mid : List Char)
    (hx : pyWs x = false) (hy : pyWs y = false) :
    pyStrip (x :: (mid ++ [y])) = x :: (mid ++ [y]) := by
  unfold pyStrip
  rw [List.dropWhile_cons, hx]
  simp only [Bool.false_eq_true, if_false]
  rw [show x :: (mid ++ [y]) = (x :: mid) ++ [y] from rfl]
  exact dropWhileEnd_concat_false pyWs (x :: mid) y hy

theorem stripQuotes_no_quote (s : List Char) (h : ∀ c ∈ s, quoteChar c = false) :
    stripQuotes s = s := by
  unfold stripQuotes
  rw [dropWhile_all_false quoteChar s h, dropWhileEnd_all_false quoteChar s h]

theorem stripQuotes_wrap (nm : List Char) (h : ∀ c ∈ nm, quoteChar c = false)
    (hne : nm ≠ []) :
    stripQuotes ('"' :: (nm ++ ['"'])) = nm := by
  obtain ⟨a, t, rfl⟩ : ∃ a t, nm = a :: t := by
    cases nm with
    | nil => exact absurd rfl hne
    | cons a t => exact ⟨a, t, rfl⟩
  unfold stripQuotes
  rw [List.dropWhile_cons]
  rw [show quoteChar '"' = true from by decide]
  simp only [if_true]
  rw [List.cons_append, List.dropWhile_cons, h a (by simp)]
  simp only [Bool.false_eq_true, if_false]
  rw [show a :: (t ++ ['"']) = (a :: t) ++ ['"'] from rfl]
  rw [dropWhileEnd_concat_true quoteChar (a :: t) '"' (by decide)]
  exact dropWhileEnd_all_false quoteChar (a :: t) h

theorem not_ws_of_gt32 (c : Char) (h : 32 < c.toNat) : pyWs c = false := by
  unfold pyWs
  simp only [Bool.or_eq_false_iff, decide_eq_false_iff_not]
  refine ⟨⟨⟨⟨⟨?_, ?_⟩, ?_⟩, ?_⟩, ?_⟩, ?_⟩ <;> (intro he; subst he; exact absurd h (by decide))

theorem tokenOK_ascii (s : List Char) (h : tokenOK s) : ∀ c ∈ s, c.toNat < 128 :=
  fun c hc => lt_trans (h.2 c hc).2.1 (by norm_num)

theorem tokenOK_no_ws (s : List Char) (h : tokenOK s) : ∀ c ∈ s, pyWs c = false :=
  fun c hc => not_ws_of_gt32 c (h.2 c hc).1

theorem tokenOK_no_quote (s : List Char) (h : tokenOK s) : ∀ c ∈ s, quoteChar c = false := by
  intro c hc
  obtain ⟨_, _, hq, hq', _⟩ := h.2 c hc
  unfold quoteChar
  simp [hq, hq']

theorem utf8EncodeChar_ascii (c : Char) (h : c.toNat < 128) :
    utf8EncodeChar c = [c.toNat] := by
  unfold utf8EncodeChar
  rw [if_pos h]

theorem utf8Encode_ascii (s : List Char) (h : ∀ c ∈ s, c.toNat < 128) :
    utf8Encode s = s.map Char.toNat := by
  induction s with
  | nil => rfl
  | cons a s ih =>
    unfold utf8Encode at ih ⊢
    rw [List.flatMap_cons, utf8EncodeChar_ascii a (h a (by simp)), List.map_cons,
      ih (fun c hc => h c (by simp [hc]))]
    rfl

theorem char_toNat_lt (c : Char) : c.toNat < 1114112 := by
  have h := c.valid
  rcases h with h | ⟨h1, h2⟩ <;> simp [Char.toNat] <;> omega

theorem utf8EncodeChar_lt (c : Char) : ∀ b ∈ utf8EncodeChar c, b < 256 := by
  intro b hb
  have hv := char_toNat_lt c
  unfold utf8EncodeChar at hb
  by_cases h1 : c.toNat < 128
  · rw [if_pos h1] at hb
    simp at hb
    omega
  · rw [if_neg h1] at hb
    by_cases h2 : c.toNat < 2048
    · rw [if_pos h2] at hb
      simp at hb
      rcases hb with hb | hb <;> omega
    · rw [if_neg h2] at hb
      by_cases h3 : c.toNat < 65536
      · rw [if_pos h3] at hb
        simp at hb
        rcases hb with hb | hb | hb <;> omega
      · rw [if_neg h3] at hb
        simp at hb
        rcases hb with hb | hb | hb | hb <;> omega

theorem utf8Encode_lt (s : List Char) : ∀ b ∈ utf8Encode s, b < 256 := by
  intro b hb
  unfold utf8Encode at hb
  rw [List.mem_flatMap] at hb
  obtain ⟨c, _, hc⟩ := hb
  exact utf8EncodeChar_lt c b hc

theorem utf8DecodeGo_ascii (s : List Char) (h : ∀ c ∈ s, c.toNat < 128) (fuel : Nat)
    (hf : s.length ≤ fuel) :
    utf8DecodeGo fuel (s.map Char.toNat) = some s := by
  induction fuel generalizing s with
  | zero =>
    cases s with
    | nil => rfl
    | cons a s => simp at hf
  | succ f ih =>
    cases s with
    | nil => rfl
    | cons a s =>
      have hstep : utf8DecodeGo (f + 1) (a.toNat :: List.map Char.toNat s) =
          (utf8DecodeGo f (List.map Char.toNat s)).map (fun r => Char.ofNat a.toNat :: r) := by
        have ha := h a (by simp)
        simp only [utf8DecodeGo, ha, if_true, if_pos]
      rw [List.map_cons, hstep]
      rw [ih s (fun c hc => h c (by simp [hc])) (by simpa using Nat.le_of_succ_le_succ hf)]
      rw [Char.ofNat_toNat]
      rfl

theorem utf8Decode_encode_ascii (s : List Char) (h : ∀ c ∈ s, c.toNat < 128) :
    utf8Decode (utf8Encode s) = some s := by
  rw [utf8Encode_ascii s h]
  unfold utf8Decode
  rw [List.length_map]
  exact utf8DecodeGo_ascii s h s.length le_rfl

/-! ## Claim C6: the base64 round trip -/

theorem b64Val_b64Char : ∀ n, n < 64 → b64Val (b64Char n) = some n := by decide

theorem b64Char_ne_pad : ∀ n, n < 64 → b64Char n ≠ '=' := by decide

theorem b64_pred_char (s : Nat) (hs : s < 64) :
    ((b64Val (b64Char s)).isSome || decide (b64Char s = '=')) = true := by
  rw [b64Val_b64Char s hs]
  rfl

theorem b64encode_mem_ok (n : Nat) : ∀ l : List Nat, l.length ≤ n → (∀ b ∈ l, b < 256) →
    ∀ ch ∈ b64encode l, ((b64Val ch).isSome || decide (ch = '=')) = true := by
  induction n with
  | zero =>
    intro l hl _ ch hc
    have : l = [] := List.eq_nil_of_length_eq_zero (Nat.le_zero.mp hl)
    subst this
    simp [b64encode] at hc
  | succ n ih =>
    intro l hl h ch hc
    rcases l with _ | ⟨a, _ | ⟨b, _ | ⟨c, rest⟩⟩⟩
    · simp [b64encode] at hc
    · have ha := h a (by simp)
      simp only [b64encode, List.mem_cons, List.not_mem_nil, or_false] at hc
      rcases hc with rfl | rfl | rfl | rfl
      · exact b64_pred_char _ (by omega)
      · exact b64_pred_char _ (by omega)
      · decide
      · decide
    · have ha := h a (by simp)
      have hb := h b (by simp)
      simp only [b64encode, List.mem_cons, List.not_mem_nil, or_false] at hc
      rcases hc with rfl | rfl | rfl | rfl
      · exact b64_pred_char _ (by omega)
      · exact b64_pred_char _ (by omega)
      · exact b64_pred_char _ (by omega)
      · decide
    · have ha := h a (by simp)
      have hb := h b (by simp)
      have hcb := h c (by simp)
      simp only [b64encode, List.mem_cons, List.not_mem_nil, or_false] at hc
      rcases hc with rfl | rfl | rfl | rfl | hc
      · exact b64_pred_char _ (by omega)
      · exact b64_pred_char _ (by omega)
      · exact b64_pred_char _ (by omega)
      · exact b64_pred_char _ (by omega)
      · exact ih rest (by simp at hl; omega) (fun x hx => h x (by simp [hx])) ch hc

theorem b64decodeQuads_encode (n : Nat) : ∀ l : List Nat, l.length ≤ n →
    (∀ b ∈ l, b < 256) → b64decodeQuads (b64encode l) = .ok l := by
  induction n with
  | zero =>
    intro l hl _
    have : l = [] := List.eq_nil_of_length_eq_zero (Nat.le_zero.mp hl)
    subst this
    rfl
  | succ n ih =>
    intro l hl h
    rcases l with _ | ⟨a, _ | ⟨b, _ | ⟨c, rest⟩⟩⟩
    · rfl
    · have ha := h a (by simp)
      have h1 : b64Val (b64Char (a / 4)) = some (a / 4) := b64Val_b64Char _ (by omega)
      have h2 : b64Val (b64Char (a % 4 * 16)) = some (a % 4 * 16) :=
        b64Val_b64Char _ (by omega)
      show b64decodeQuads [b64Char (a / 4), b64Char (a % 4 * 16), '=', '='] = .ok [a]
      simp only [b64decodeQuads, h1, h2, if_true, and_self]
      have hval : a / 4 * 4 + a % 4 * 16 / 16 = a := by omega
      rw [hval]
    · have ha := h a (by simp)
      have hb := h b (by simp)
      have h1 : b64Val (b64Char (a / 4)) = some (a / 4) := b64Val_b64Char _ (by omega)
      have h2 : b64Val (b64Char (a % 4 * 16 + b / 16)) = some (a % 4 * 16 + b / 16) :=
        b64Val_b64Char _ (by omega)
      have h3 : b64Val (b64Char (b % 16 * 4)) = some (b % 16 * 4) :=
        b64Val_b64Char _ (by omega)
      have hne : b64Char (b % 16 * 4) ≠ '=' := b64Char_ne_pad _ (by omega)
      show b64decodeQuads
          [b64Char (a / 4), b64Char (a % 4 * 16 + b / 16), b64Char (b % 16 * 4), '='] =
        .ok [a, b]
      simp only [b64decodeQuads, h1, h2, h3, if_true, and_self]
      rw [if_neg hne]
      have hv1 : a / 4 * 4 + (a % 4 * 16 + b / 16) / 16 = a := by omega
      have hv2 : (a % 4 * 16 + b / 16) % 16 * 16 + b % 16 * 4 / 4 = b := by omega
      rw [hv1, hv2]
    · have ha := h a (by simp)
      have hb := h b (by simp)
      have hcb := h c (by simp)
      have h1 : b64Val (b64Char (a / 4)) = some (a / 4) := b64Val_b64Char _ (by omega)
      have h2 : b64Val (b64Char (a % 4 * 16 + b / 16)) = some (a % 4 * 16 + b / 16) :=
        b64Val_b64Char _ (by omega)
      have h3 : b64Val (b64Char (b % 16 * 4 + c / 64)) = some (b % 16 * 4 + c / 64) :=
        b64Val_b64Char _ (by omega)
      have h4 : b64Val (b64Char (c % 64)) = some (c % 64) := b64Val_b64Char _ (by omega)
      have hne3 : b64Char (b % 16 * 4 + c / 64) ≠ '=' := b64Char_ne_pad _ (by omega)
      have hne4 : b64Char (c % 64) ≠ '=' := b64Char_ne_pad _ (by omega)
      show b64decodeQuads
          (b64Char (a / 4) :: b64Char (a % 4 * 16 + b / 16) ::
            b64Char (b % 16 * 4 + c / 64) :: b64Char (c % 64) :: b64encode rest) =
        .ok (a :: b :: c :: rest)
      simp only [b64decodeQuads, h1, h2, h3, h4, if_true, and_self]
      rw [if_neg hne3, if_neg hne4]
      rw [ih rest (by simp at hl; omega) (fun x hx => h x (by simp [hx]))]
      have hv1 : a / 4 * 4 + (a % 4 * 16 + b / 16) / 16 = a := by omega
      have hv2 : (a % 4 * 16 + b / 16) % 16 * 16 + (b % 16 * 4 + c / 64) / 4 = b := by omega
      have hv3 : (b % 16 * 4 + c / 64) % 4 * 64 + c % 64 = c := by omega
      simp only [Except.map, hv1, hv2, hv3]

theorem b64_roundtrip (l : List Nat) (h : ∀ b ∈ l, b < 256) :
    b64decode (b64encode l) = .ok l := by
  unfold b64decode
  rw [List.filter_eq_self.mpr (b64encode_mem_ok l.length l le_rfl h)]
  exact b64decodeQuads_encode l.length l le_rfl h

/-! ## Claim C6: framing of the encoded body -/

theorem partInterior_lt (p : MPart) (h : ∀ b ∈ p.content, b < 256) :
    ∀ b ∈ partInterior p, b < 256 := by
  intro b hb
  unfold partInterior at hb
  rcases List.mem_append.mp hb with hb1 | hb1
  · rcases List.mem_append.mp hb1 with hb2 | hb2
    · rcases List.mem_append.mp hb2 with hb3 | hb3
      · rcases List.mem_append.mp hb3 with hb4 | hb4
        · unfold crlfB at hb4
          simp at hb4
          omega
        · exact utf8Encode_lt _ b hb4
      · unfold crlfcrlfB at hb3
        simp at hb3
        omega
    · exact h b hb2
  · unfold crlfB at hb1
    simp at hb1
    omega

theorem encodeMultipart_lt (B : List Char) (parts : List MPart)
    (hparts : ∀ p ∈ parts, ∀ b ∈ p.content, b < 256) :
    ∀ b ∈ encodeMultipart B parts, b < 256 := by
  intro b hb
  unfold encodeMultipart at hb
  rcases List.mem_append.mp hb with hb1 | hb1
  · rcases List.mem_append.mp hb1 with hb2 | hb2
    · rcases List.mem_append.mp hb2 with hb3 | hb3
      · rw [List.mem_flatMap] at hb3
        obtain ⟨p, hp, hin⟩ := hb3
        rcases List.mem_append.mp hin with hin1 | hin1
        · rcases List.mem_append.mp hin1 with hin2 | hin2
          · simp at hin2
            omega
          · exact utf8Encode_lt _ b hin2
        · exact partInterior_lt p (hparts p hp) b hin1
      · simp at hb3
        omega
    · exact utf8Encode_lt _ b hb2
  · simp at hb1
    omega

theorem pat_no_small_byte (B : List Char) (hB : tokenOK B) (b : Nat) (hb : b ≤ 32) :
    b ∉ [45, 45] ++ utf8Encode B := by
  intro hmem
  rcases List.mem_append.mp hmem with h1 | h1
  · simp at h1
    omega
  · rw [utf8Encode_ascii B (tokenOK_ascii B hB)] at h1
    rw [List.mem_map] at h1
    obtain ⟨c, hc, rfl⟩ := h1
    have := (hB.2 c hc).1
    omega

theorem tail_no_pat (B : List Char) (hB : tokenOK B) :
    containsSub ([45, 45] ++ utf8Encode B) [45, 45, 13, 10] = false := by
  obtain ⟨c, B', hcB⟩ : ∃ c B', B = c :: B' := by
    cases B with
    | nil => exact absurd rfl hB.1
    | cons c B' => exact ⟨c, B', rfl⟩
  have hc32 : 32 < c.toNat := (hB.2 c (by rw [hcB]; simp)).1
  rw [containsSub_eq_false_iff]
  intro i hp
  rw [List.isPrefixOf_iff_prefix] at hp
  obtain ⟨t, ht⟩ := hp
  rw [utf8Encode_ascii B (tokenOK_ascii B hB), hcB] at ht
  simp only [List.map_cons, List.cons_append, List.nil_append, List.append_assoc] at ht
  rcases i with _ | _ | _ | _ | i
  · simp at ht
    obtain ⟨h1, -⟩ := ht
    omega
  · simp at ht
  · simp at ht
  · simp at ht
  · simp at ht

theorem getLast_eq_of_getLast? (l : List α) (h : l ≠ []) (a : α)
    (h2 : l.getLast? = some a) : l.getLast h = a := by
  rw [List.getLast?_eq_getLast l h] at h2
  exact Option.some.inj h2

theorem partInterior_concat (p : MPart) :
    partInterior p =
      (crlfB ++ utf8Encode (dispLine p) ++ crlfcrlfB ++ p.content ++ [13]) ++ [10] := by
  unfold partInterior crlfB crlfcrlfB
  simp [List.append_assoc]

theorem partInterior_ne_nil (p : MPart) : partInterior p ≠ [] := by
  rw [partInterior_concat]
  simp

theorem partInterior_getLast (p : MPart) (h : partInterior p ≠ []) :
    (partInterior p).getLast h = 10 := by
  apply getLast_eq_of_getLast?
  rw [partInterior_concat]
  exact List.getLast?_concat _

theorem splitOnSub_encode_go (pat tail : List Nat) (parts : List MPart)
    (hne : pat ≠ []) (h10 : (10 : Nat) ∉ pat)
    (hint : ∀ p ∈ parts, containsSub pat (partInterior p) = false)
    (htail : splitOnSub pat tail = [tail]) :
    splitOnSub pat (parts.flatMap (fun p => pat ++ partInterior p) ++ (pat ++ tail)) =
      [] :: (parts.map partInterior ++ [tail]) := by
  induction parts with
  | nil =>
    have h0 := splitOnSub_append pat [] tail hne (by intro i hi; simp at hi)
    simp only [List.nil_append] at h0
    simp only [List.flatMap_nil, List.nil_append, List.map_nil]
    rw [h0, htail]
  | cons p ps ih =>
    obtain ⟨Z, hZ⟩ : ∃ Z,
        ps.flatMap (fun q => pat ++ partInterior q) ++ (pat ++ tail) = pat ++ Z := by
      cases ps with
      | nil => exact ⟨tail, by simp⟩
      | cons q qs =>
        exact ⟨partInterior q ++ (qs.flatMap (fun r => pat ++ partInterior r) ++ (pat ++ tail)),
          by simp [List.append_assoc]⟩
    have hsplit1 : splitOnSub pat (pat ++ Z) = [] :: splitOnSub pat Z := by
      have h0 := splitOnSub_append pat [] Z hne (by intro i hi; simp at hi)
      simpa using h0
    have hih := ih (fun q hq => hint q (by simp [hq]))
    rw [hZ, hsplit1] at hih
    have hZsplit : splitOnSub pat Z = ps.map partInterior ++ [tail] := by
      injection hih
    have hmain : splitOnSub pat (partInterior p ++ pat ++ Z) =
        partInterior p :: splitOnSub pat Z :=
      splitOnSub_append pat (partInterior p) Z hne
        (no_prefix_inside pat (partInterior p) Z (hint p (by simp)) (partInterior_ne_nil p)
          (fun x hx => by
            rw [partInterior_getLast]
            intro he
            exact h10 (he ▸ hx)))
    have hlist : (p :: ps).flatMap (fun q => pat ++ partInterior q) ++ (pat ++ tail) =
        pat ++ (partInterior p ++ (pat ++ Z)) := by
      rw [List.flatMap_cons]
      rw [show (pat ++ partInterior p) ++ ps.flatMap (fun q => pat ++ partInterior q) ++
            (pat ++ tail) =
          pat ++ (partInterior p ++ (ps.flatMap (fun q => pat ++ partInterior q) ++
            (pat ++ tail))) from by simp [List.append_assoc]]
      rw [hZ]
    rw [hlist]
    have hsplit2 : splitOnSub pat (pat ++ (partInterior p ++ (pat ++ Z))) =
        [] :: splitOnSub pat (partInterior p ++ (pat ++ Z)) := by
      have h0 := splitOnSub_append pat [] (partInterior p ++ (pat ++ Z)) hne
        (by intro i hi; simp at hi)
      simpa using h0
    rw [hsplit2,
      show partInterior p ++ (pat ++ Z) = partInterior p ++ pat ++ Z from
        (List.append_assoc _ _ _).symm,
      hmain, hZsplit]
    simp

theorem splitOnSub_encodeMultipart (B : List Char) (parts : List MPart)
    (hB : tokenOK B)
    (hint : ∀ p ∈ parts, containsSub ([45, 45] ++ utf8Encode B) (partInterior p) = false) :
    splitOnSub ([45, 45] ++ utf8Encode B) (encodeMultipart B parts) =
      [] :: (parts.map partInterior ++ [[45, 45, 13, 10]]) := by
  have h10 : (10 : Nat) ∉ [45, 45] ++ utf8Encode B := pat_no_small_byte B hB 10 (by omega)
  have htail : splitOnSub ([45, 45] ++ utf8Encode B) [45, 45, 13, 10] = [[45, 45, 13, 10]] :=
    splitOnSub_of_not_contains _ _ (tail_no_pat B hB)
  have henc : encodeMultipart B parts =
      parts.flatMap (fun p => ([45, 45] ++ utf8Encode B) ++ partInterior p) ++
        (([45, 45] ++ utf8Encode B) ++ [45, 45, 13, 10]) := by
    unfold encodeMultipart
    simp [List.append_assoc]
  rw [henc]
  exact splitOnSub_encode_go _ _ parts (by simp) h10 hint htail

/-! ## Claim C6: decoding one part -/

theorem dispLine_eq (p : MPart) :
    dispLine p = "Content-Disposition".data ++ [':'] ++ (' ' :: dVal p) := by
  unfold dispLine dVal
  cases p.filename with
  | none =>
    rw [show "Content-Disposition: form-data; name=\"".data =
        "Content-Disposition".data ++ [':'] ++ (' ' :: "form-data; name=\"".data) from by
      decide]
    simp [List.append_assoc]
  | some f =>
    rw [show "Content-Disposition: form-data; name=\"".data =
        "Content-Disposition".data ++ [':'] ++ (' ' :: "form-data; name=\"".data) from by
      decide]
    simp [List.append_assoc]

theorem dispLine_props (p : MPart) (hn : tokenOK p.name) (hf : optTokenOK p.filename) :
    ∀ c ∈ dispLine p, c.toNat < 128 ∧ c.toNat ≠ 13 ∧ c.toNat ≠ 10 := by
  have hlit1 : ∀ x ∈ "Content-Disposition: form-data; name=\"".data,
      x.toNat < 128 ∧ x.toNat ≠ 13 ∧ x.toNat ≠ 10 := by decide
  have hlit2 : ∀ x ∈ "\"".data, x.toNat < 128 ∧ x.toNat ≠ 13 ∧ x.toNat ≠ 10 := by decide
  have hlit3 : ∀ x ∈ "; filename=\"".data,
      x.toNat < 128 ∧ x.toNat ≠ 13 ∧ x.toNat ≠ 10 := by decide
  have htok : ∀ (s : List Char), tokenOK s → ∀ x ∈ s,
      x.toNat < 128 ∧ x.toNat ≠ 13 ∧ x.toNat ≠ 10 := by
    intro s hs x hx
    have h1 := (hs.2 x hx).1
    have h2 := (hs.2 x hx).2.1
    exact ⟨by omega, by omega, by omega⟩
  intro c hc
  unfold dispLine at hc
  cases hpf : p.filename with
  | none =>
    rw [hpf] at hc
    simp only [List.append_nil] at hc
    rcases List.mem_append.mp hc with h1 | h1
    · rcases List.mem_append.mp h1 with h2 | h2
      · exact hlit1 c h2
      · exact htok _ hn c h2
    · exact hlit2 c h1
  | some f =>
    rw [hpf] at hc
    have hff : tokenOK f := by rw [hpf] at hf; exact hf
    rcases List.mem_append.mp hc with h1 | h1
    · rcases List.mem_append.mp h1 with h2 | h2
      · rcases List.mem_append.mp h2 with h3 | h3
        · exact hlit1 c h3
        · exact htok _ hn c h3
      · exact hlit2 c h2
    · rcases List.mem_append.mp h1 with h2 | h2
      · rcases List.mem_append.mp h2 with h3 | h3
        · exact hlit3 c h3
        · exact htok _ hff c h3
      · exact hlit2 c h2

theorem no_crlfcrlf_in_header (E : List Nat) (h13 : (13 : Nat) ∉ E) :
    containsSub crlfcrlfB ([13, 10] ++ E) = false := by
  rw [containsSub_eq_false_iff]
  intro i hp
  rw [List.isPrefixOf_iff_prefix] at hp
  obtain ⟨t, ht⟩ := hp
  have e1 : (crlfcrlfB ++ t)[2]? = some 13 := rfl
  rw [ht] at e1
  rw [List.getElem?_drop] at e1
  rw [List.getElem?_append_right (by simp)] at e1
  simp only [List.length_cons, List.length_nil] at e1
  rw [show i + 2 - (0 + 1 + 1) = i from by omega] at e1
  exact h13 (List.getElem?_mem e1)

theorem dispLine_concat_quote (p : MPart) : ∃ s, dispLine p = s ++ ['"'] := by
  unfold dispLine
  cases p.filename with
  | none =>
    refine ⟨"Content-Disposition: form-data; name=\"".data ++ p.name, ?_⟩
    simp [show ("\"" : String).data = ['"'] from by decide]
  | some f =>
    refine ⟨"Content-Disposition: form-data; name=\"".data ++ p.name ++ "\"".data ++
      ("; filename=\"".data ++ f), ?_⟩
    simp [show ("\"" : String).data = ['"'] from by decide, List.append_assoc]

theorem splitFirstSub_interior (p : MPart) (hn : tokenOK p.name) (hf : optTokenOK p.filename) :
    splitFirstSub crlfcrlfB (partInterior p) =
      some (crlfB ++ utf8Encode (dispLine p), p.content ++ crlfB) := by
  have hE13 : (13 : Nat) ∉ utf8Encode (dispLine p) := by
    rw [utf8Encode_ascii _ (fun c hc => (dispLine_props p hn hf c hc).1)]
    intro hmem
    rw [List.mem_map] at hmem
    obtain ⟨c, hc, hceq⟩ := hmem
    exact (dispLine_props p hn hf c hc).2.1 hceq
  have hcont : containsSub crlfcrlfB (crlfB ++ utf8Encode (dispLine p)) = false :=
    no_crlfcrlf_in_header (utf8Encode (dispLine p)) hE13
  have hpre_ne : crlfB ++ utf8Encode (dispLine p) ≠ [] := by simp [crlfB]
  have hlast : ∀ x ∈ crlfcrlfB,
      x ≠ (crlfB ++ utf8Encode (dispLine p)).getLast hpre_ne := by
    obtain ⟨s, hs⟩ := dispLine_concat_quote p
    have hg : (crlfB ++ utf8Encode (dispLine p)).getLast hpre_ne = 34 := by
      apply getLast_eq_of_getLast?
      have henc : utf8Encode (s ++ ['"']) = utf8Encode s ++ [34] := by
        unfold utf8Encode
        rw [List.flatMap_append]
        rfl
      rw [hs, henc, ← List.append_assoc]
      exact List.getLast?_concat _
    rw [hg]
    decide
  have hshape : partInterior p =
      (crlfB ++ utf8Encode (dispLine p)) ++ crlfcrlfB ++ (p.content ++ crlfB) := by
    unfold partInterior
    simp [List.append_assoc]
  rw [hshape]
  exact splitFirstSub_append crlfcrlfB _ _ (by simp [crlfcrlfB])
    (no_prefix_inside crlfcrlfB _ _ hcont hpre_ne hlast)

theorem processPart_header_dict (p : MPart) (hn : tokenOK p.name) (hf : optTokenOK p.filename) :
    parseHeaderLines ('\r' :: '\n' :: dispLine p) =
      [("content-disposition".data, dVal p)] := by
  have h1 : splitOnSub ['\r', '\n'] (dispLine p) = [dispLine p] :=
    splitOnSub_of_not_contains _ _ (not_contains_of_not_mem '\r' ['\n'] _ (by
      intro hmem
      exact (dispLine_props p hn hf '\r' hmem).2.1 (by decide)))
  have hsplit : splitOnSub ['\r', '\n'] ('\r' :: '\n' :: dispLine p) = [[], dispLine p] := by
    have h0 := splitOnSub_append ['\r', '\n'] [] (dispLine p) (by simp)
      (by intro i hi; simp at hi)
    simp only [List.nil_append] at h0
    rw [h1] at h0
    exact h0
  unfold parseHeaderLines
  rw [hsplit]
  rw [List.foldl_cons, List.foldl_cons, List.foldl_nil]
  have hstep1 : headerStep [] [] = [] := by
    unfold headerStep
    rw [show memCh ':' [] = false from rfl]
    simp
  rw [hstep1]
  have hmem : memCh ':' (dispLine p) = true := by
    unfold memCh
    rw [List.any_eq_true]
    refine ⟨':', ?_, by simp⟩
    rw [dispLine_eq]
    simp
  have hsfs : splitFirstSub [':'] (dispLine p) =
      some ("Content-Disposition".data, ' ' :: dVal p) := by
    rw [dispLine_eq]
    exact splitFirstSub_append [':'] _ _ (by simp)
      (no_prefix_inside _ _ _ (by decide) (by decide) (by decide))
  unfold headerStep
  rw [hmem, hsfs]
  simp only [if_true, List.nil_append]
  have hkey : pyLower (pyStrip "Content-Disposition".data) = "content-disposition".data := by
    decide
  have hdval : ∃ m, dVal p = 'f' :: (m ++ ['"']) := by
    unfold dVal
    cases p.filename with
    | none =>
      refine ⟨"orm-data; name=\"".data ++ p.name, ?_⟩
      simp [show "form-data; name=\"".data = 'f' :: "orm-data; name=\"".data from by decide,
        show ("\"" : String).data = ['"'] from by decide, List.append_assoc]
    | some f =>
      refine ⟨"orm-data; name=\"".data ++ p.name ++ "\"".data ++ ("; filename=\"".data ++ f),
        ?_⟩
      simp [show "form-data; name=\"".data = 'f' :: "orm-data; name=\"".data from by decide,
        show ("\"" : String).data = ['"'] from by decide, List.append_assoc]
  have hval : pyStrip (' ' :: dVal p) = dVal p := by
    rw [pyStrip_cons_ws ' ' _ (by decide)]
    obtain ⟨m, hm⟩ := hdval
    rw [hm]
    exact pyStrip_sandwich 'f' '"' m (by decide) (by decide)
  rw [hkey, hval]

theorem startsWith_append_self [DecidableEq α] (pat rest : List α) :
    startsWith pat (pat ++ rest) = true := by
  unfold startsWith
  rw [List.isPrefixOf_iff_prefix]
  exact List.prefix_append _ _

theorem dispStep_name (pr : Option (List Char) × Option (List Char)) (item0 rest : List Char)
    (hstrip : pyStrip item0 = "name=".data ++ rest) :
    dispStep pr item0 = (some (stripQuotes rest), pr.2) := by
  unfold dispStep
  simp only []
  rw [hstrip, startsWith_append_self]
  simp only [if_true]
  rw [List.drop_left' (by decide : ("name=".data : List Char).length = 5)]

theorem dispStep_filename (pr : Option (List Char) × Option (List Char))
    (item0 rest : List Char)
    (hstrip : pyStrip item0 = "filename=".data ++ rest) :
    dispStep pr item0 = (pr.1, some (stripQuotes rest)) := by
  unfold dispStep
  simp only []
  rw [hstrip]
  have h1 : startsWith "name=".data ("filename=".data ++ rest) = false := by
    show List.isPrefixOf ('n' :: "ame=".data) ('f' :: ("ilename=".data ++ rest)) = false
    simp [List.isPrefixOf]
  rw [h1]
  simp only [Bool.false_eq_true, if_false]
  rw [startsWith_append_self]
  simp only [if_true]
  rw [List.drop_left' (by decide : ("filename=".data : List Char).length = 9)]

theorem dispStep_formdata (pr : Option (List Char) × Option (List Char)) :
    dispStep pr "form-data".data = pr := by
  unfold dispStep
  simp only []
  rw [show pyStrip "form-data".data = "form-data".data from by decide]
  rw [show startsWith "name=".data "form-data".data = false from by decide]
  rw [show startsWith "filename=".data "form-data".data = false from by decide]
  simp

theorem parseDisposition_dVal (p : MPart) (hn : tokenOK p.name) (hf : optTokenOK p.filename) :
    parseDisposition (dVal p) = (some p.name, p.filename) := by
  have hnamestrip : pyStrip (" name=\"".data ++ p.name ++ ['"']) =
      "name=".data ++ ('"' :: (p.name ++ ['"'])) := by
    rw [show (" name=\"".data : List Char) ++ p.name ++ ['"'] =
        ' ' :: ('n' :: (("ame=\"".data ++ p.name) ++ ['"'])) from by
      simp [show (" name=\"".data : List Char) = ' ' :: 'n' :: "ame=\"".data from by decide,
        List.append_assoc]]
    rw [pyStrip_cons_ws ' ' _ (by decide)]
    rw [pyStrip_sandwich 'n' '"' _ (by decide) (by decide)]
    simp [show ("name=".data : List Char) ++ ('"' :: (p.name ++ ['"'])) =
        'n' :: (("ame=\"".data ++ p.name) ++ ['"']) from by
      simp [show ("name=".data : List Char) = 'n' :: "ame=".data from by decide,
        show ("ame=\"".data : List Char) = "ame=".data ++ ['"'] from by decide,
        List.append_assoc]]
  have hquotes : stripQuotes ('"' :: (p.name ++ ['"'])) = p.name :=
    stripQuotes_wrap p.name (tokenOK_no_quote p.name hn) hn.1
  cases hpf : p.filename with
  | none =>
    have hsplit : splitOnSub [';'] (dVal p) =
        ["form-data".data, " name=\"".data ++ p.name ++ ['"']] := by
      unfold dVal
      rw [hpf]
      rw [show ("form-data; name=\"".data : List Char) ++ p.name ++ "\"".data ++ [] =
          "form-data".data ++ [';'] ++ ((" name=\"".data ++ p.name) ++ ['"']) from by
        simp [show "form-data; name=\"".data =
            "form-data".data ++ [';'] ++ " name=\"".data from by decide,
          show ("\"" : String).data = ['"'] from by decide, List.append_assoc]]
      rw [splitOnSub_append [';'] _ _ (by simp)
        (no_prefix_inside _ _ _ (by decide) (by decide) (by decide))]
      congr 1
      apply splitOnSub_of_not_contains
      apply not_contains_of_not_mem
      intro hmem
      rcases List.mem_append.mp hmem with h1 | h1
      · rcases List.mem_append.mp h1 with h2 | h2
        · revert h2; decide
        · exact (hn.2 ';' h2).2.2.2.2.1 rfl
      · simp at h1
    unfold parseDisposition
    rw [hsplit, List.foldl_cons, List.foldl_cons, List.foldl_nil, dispStep_formdata]
    rw [dispStep_name _ _ _ hnamestrip]
    rw [hquotes]
  | some f =>
    have hff : tokenOK f := by rw [hpf] at hf; exact hf
    have hsplit : splitOnSub [';'] (dVal p) =
        ["form-data".data, " name=\"".data ++ p.name ++ ['"'],
          " filename=\"".data ++ f ++ ['"']] := by
      unfold dVal
      rw [hpf]
      rw [show ("form-data; name=\"".data : List Char) ++ p.name ++ "\"".data ++
            ("; filename=\"".data ++ f ++ "\"".data) =
          "form-data".data ++ [';'] ++
            (((" name=\"".data ++ p.name) ++ ['"']) ++ [';'] ++
              ((" filename=\"".data ++ f) ++ ['"'])) from by
        simp [show "form-data; name=\"".data =
            "form-data".data ++ [';'] ++ " name=\"".data from by decide,
          show "; filename=\"".data = [';'] ++ " filename=\"".data from by decide,
          show ("\"" : String).data = ['"'] from by decide, List.append_assoc]]
      rw [splitOnSub_append [';'] _ _ (by simp)
        (no_prefix_inside _ _ _ (by decide) (by decide) (by decide))]
      congr 1
      have hpre2_ne : (" name=\"".data ++ p.name) ++ ['"'] ≠ ([] : List Char) := by simp
      have hcont2 : containsSub [';'] ((" name=\"".data ++ p.name) ++ ['"']) = false := by
        apply not_contains_of_not_mem
        intro hmem
        rcases List.mem_append.mp hmem with h1 | h1
        · rcases List.mem_append.mp h1 with h2 | h2
          · revert h2; decide
          · exact (hn.2 ';' h2).2.2.2.2.1 rfl
        · simp at h1
      have hlast2 : ∀ x ∈ [';'],
          x ≠ ((" name=\"".data ++ p.name) ++ ['"']).getLast hpre2_ne := by
        have hg : ((" name=\"".data ++ p.name) ++ ['"']).getLast hpre2_ne = '"' :=
          getLast_eq_of_getLast? _ _ _ (List.getLast?_concat _)
        rw [hg]
        decide
      rw [splitOnSub_append [';'] _ _ (by simp)
        (no_prefix_inside _ _ _ hcont2 hpre2_ne hlast2)]
      congr 1
      apply splitOnSub_of_not_contains
      apply not_contains_of_not_mem
      intro hmem
      rcases List.mem_append.mp hmem with h1 | h1
      · rcases List.mem_append.mp h1 with h2 | h2
        · revert h2; decide
        · exact (hff.2 ';' h2).2.2.2.2.1 rfl
      · simp at h1
    have hfnstrip : pyStrip (" filename=\"".data ++ f ++ ['"']) =
        "filename=".data ++ ('"' :: (f ++ ['"'])) := by
      rw [show (" filename=\"".data : List Char) ++ f ++ ['"'] =
          ' ' :: ('f' :: (("ilename=\"".data ++ f) ++ ['"'])) from by
        simp [show (" filename=\"".data : List Char) =
            ' ' :: 'f' :: "ilename=\"".data from by decide, List.append_assoc]]
      rw [pyStrip_cons_ws ' ' _ (by decide)]
      rw [pyStrip_sandwich 'f' '"' _ (by decide) (by decide)]
      simp [show ("filename=".data : List Char) ++ ('"' :: (f ++ ['"'])) =
          'f' :: (("ilename=\"".data ++ f) ++ ['"']) from by
        simp [show ("filename=".data : List Char) = 'f' :: "ilename=".data from by decide,
          show ("ilename=\"".data : List Char) = "ilename=".data ++ ['"'] from by decide,
          List.append_assoc]]
    unfold parseDisposition
    rw [hsplit, List.foldl_cons, List.foldl_cons, List.foldl_cons, List.foldl_nil,
      dispStep_formdata]
    rw [dispStep_name _ _ _ hnamestrip]
    rw [dispStep_filename _ _ _ hfnstrip]
    rw [hquotes, stripQuotes_wrap f (tokenOK_no_quote f hff) hff.1]

theorem pyGetLast_singleton [DecidableEq κ] (k : κ) (v : ν) :
    pyGetLast [(k, v)] k = some v := by
  unfold pyGetLast
  simp

theorem take_content (content : List Nat) :
    (content ++ crlfB).take ((content ++ crlfB).length - 2) = content :=
  List.take_left' (by simp [crlfB])

theorem processPart_interior (p : MPart) (hn : tokenOK p.name) (hf : optTokenOK p.filename) :
    processPart (partInterior p) =
      match p.filename with
      | some _ => some (p.name, FormVal.bytes p.content)
      | none => (utf8Decode p.content).map (fun t => (p.name, FormVal.str t)) := by
  have hdec : utf8Decode (crlfB ++ utf8Encode (dispLine p)) =
      some ('\r' :: '\n' :: dispLine p) := by
    have henc : crlfB ++ utf8Encode (dispLine p) =
        utf8Encode ('\r' :: '\n' :: dispLine p) := rfl
    rw [henc]
    apply utf8Decode_encode_ascii
    intro c hc
    simp only [List.mem_cons] at hc
    rcases hc with rfl | rfl | hc
    · decide
    · decide
    · exact (dispLine_props p hn hf c hc).1
  unfold processPart
  rw [splitFirstSub_interior p hn hf]
  simp only []
  rw [hdec]
  simp only []
  rw [processPart_header_dict p hn hf]
  rw [pyGetLast_singleton]
  simp only [Option.getD_some]
  simp only [parseDisposition_dVal p hn hf]
  rw [if_neg hn.1]
  cases hpf : p.filename with
  | some f =>
    have hff : tokenOK f := by rw [hpf] at hf; exact hf
    simp only [Option.getD_some]
    rw [if_pos hff.1]
    rw [take_content]
  | none =>
    simp only [Option.getD_none]
    rw [if_neg (fun h => h rfl)]
    rw [take_content]
    cases hdc : utf8Decode p.content with
    | some t => rfl
    | none => rfl

/-! ## Claim C6: the accumulation loop over segments -/

theorem pyStripB_cons_ws (b : Nat) (s : List Nat) (hb : pyWsB b = true) :
    pyStripB (b :: s) = pyStripB s := by
  unfold pyStripB
  rw [List.dropWhile_cons, hb]
  simp

theorem dispLine_head (p : MPart) : ∃ d, dispLine p = 'C' :: d := by
  cases hpf : p.filename with
  | none =>
    refine ⟨"ontent-Disposition: form-data; name=\"".data ++ p.name ++ "\"".data ++ [], ?_⟩
    unfold dispLine
    rw [hpf]
    simp [show "Content-Disposition: form-data; name=\"".data =
      'C' :: "ontent-Disposition: form-data; name=\"".data from by decide,
      List.append_assoc]
  | some f =>
    refine ⟨"ontent-Disposition: form-data; name=\"".data ++ p.name ++ "\"".data ++
      ("; filename=\"".data ++ f ++ "\"".data), ?_⟩
    unfold dispLine
    rw [hpf]
    simp [show "Content-Disposition: form-data; name=\"".data =
      'C' :: "ontent-Disposition: form-data; name=\"".data from by decide,
      List.append_assoc]

theorem partInterior_strip_head (p : MPart) :
    ∃ t, pyStripB (partInterior p) = 67 :: t := by
  obtain ⟨d, hd⟩ := dispLine_head p
  obtain ⟨X, hX⟩ : ∃ X, partInterior p = 13 :: 10 :: 67 :: X := by
    refine ⟨utf8Encode d ++ crlfcrlfB ++ p.content ++ crlfB, ?_⟩
    unfold partInterior
    rw [hd]
    have henc : utf8Encode ('C' :: d) = 67 :: utf8Encode d := by
      unfold utf8Encode
      rw [List.flatMap_cons]
      rfl
    rw [henc]
    simp [crlfB, List.append_assoc]
  rw [hX]
  rw [pyStripB_cons_ws 13 _ (by decide), pyStripB_cons_ws 10 _ (by decide)]
  unfold pyStripB
  rw [List.dropWhile_cons]
  rw [show pyWsB 67 = false from by decide]
  simp only [Bool.false_eq_true, if_false]
  exact dropWhileEnd_head pyWsB 67 X (by decide)

theorem formStep_interior (d : FormData) (p : MPart) :
    formStep d (partInterior p) =
      match processPart (partInterior p) with
      | some (nm, v) => d ++ [(nm, v)]
      | none => d := by
  unfold formStep
  obtain ⟨t, ht⟩ := partInterior_strip_head p
  rw [if_neg (by
    rw [ht]
    rintro (h | h)
    · simp at h
    · simp at h)]

theorem formStep_file (d : FormData) (p : MPart) (f : List Char)
    (hn : tokenOK p.name) (hf : optTokenOK p.filename) (hpf : p.filename = some f) :
    formStep d (partInterior p) = d ++ [(p.name, FormVal.bytes p.content)] := by
  rw [formStep_interior, processPart_interior p hn hf, hpf]

theorem formStep_nofile (d : FormData) (p : MPart)
    (hn : tokenOK p.name) (hf : optTokenOK p.filename) (hpf : p.filename = none) :
    formStep d (partInterior p) = d ∨
    ∃ v, formStep d (partInterior p) = d ++ [(p.name, v)] := by
  rw [formStep_interior, processPart_interior p hn hf, hpf]
  cases hdc : utf8Decode p.content with
  | none => left; rfl
  | some t => right; exact ⟨FormVal.str t, rfl⟩

theorem pyGetLast_append_ne [DecidableEq κ] (d : List (κ × ν)) (k k' : κ) (v : ν)
    (h : k ≠ k') : pyGetLast (d ++ [(k, v)]) k' = pyGetLast d k' := by
  unfold pyGetLast
  rw [List.filter_append]
  simp [h]

theorem pyGetLast_append_eq [DecidableEq κ] (d : List (κ × ν)) (k : κ) (v : ν) :
    pyGetLast (d ++ [(k, v)]) k = some v := by
  unfold pyGetLast
  rw [List.filter_append]
  rw [show List.filter (fun p => decide (p.1 = k)) [(k, v)] = [(k, v)] from by simp]
  rw [List.getLast?_concat]
  rfl

theorem foldl_formStep_no_file (parts : List MPart) : ∀ d : FormData,
    (∀ p ∈ parts, tokenOK p.name ∧ optTokenOK p.filename ∧ p.name ≠ "file".data) →
    pyGetLast ((parts.map partInterior).foldl formStep d) "file".data =
      pyGetLast d "file".data := by
  induction parts with
  | nil =>
    intro d _
    rfl
  | cons p ps ih =>
    intro d h
    rw [List.map_cons, List.foldl_cons]
    obtain ⟨hn, hf, hne⟩ := h p (by simp)
    have hrest : ∀ q ∈ ps, tokenOK q.name ∧ optTokenOK q.filename ∧ q.name ≠ "file".data :=
      fun q hq => h q (by simp [hq])
    cases hpf : p.filename with
    | none =>
      rcases formStep_nofile d p hn hf hpf with heq | ⟨v, heq⟩
      · rw [heq]
        exact ih _ hrest
      · rw [heq, ih _ hrest]
        exact pyGetLast_append_ne d p.name "file".data v hne
    | some f =>
      rw [formStep_file d p f hn hf hpf, ih _ hrest]
      exact pyGetLast_append_ne d p.name "file".data _ hne

theorem foldl_formStep_file (pre post : List MPart) (fp : MPart) (f : List Char)
    (d : FormData)
    (hpost : ∀ p ∈ post, tokenOK p.name ∧ optTokenOK p.filename ∧ p.name ≠ "file".data)
    (hn : tokenOK fp.name) (hf : optTokenOK fp.filename) (hpf : fp.filename = some f)
    (hfname : fp.name = "file".data) :
    pyGetLast (((pre ++ fp :: post).map partInterior).foldl formStep d) "file".data =
      some (FormVal.bytes fp.content) := by
  rw [List.map_append, List.foldl_append, List.map_cons, List.foldl_cons]
  rw [formStep_file _ fp f hn hf hpf]
  rw [foldl_formStep_no_file post _ hpost]
  rw [hfname]
  exact pyGetLast_append_eq _ _ _

theorem foldl_formStep_segments (parts : List MPart) :
    ([] :: (parts.map partInterior ++ [[45, 45, 13, 10]])).foldl formStep [] =
      (parts.map partInterior).foldl formStep [] := by
  rw [List.foldl_cons]
  rw [show formStep [] [] = [] from rfl]
  rw [List.foldl_append, List.foldl_cons, List.foldl_nil]
  unfold formStep
  rw [if_pos (Or.inr (by decide))]

/-! ## Claim C6: the content-type header and the full decode -/

theorem extractBoundary_std (B : List Char) (hB : tokenOK B) :
    extractBoundary ("multipart/form-data; boundary=".data ++ B) = .ok (some B) := by
  have hct : ("multipart/form-data; boundary=".data : List Char) ++ B =
      "multipart/form-data".data ++ [';'] ++ (" boundary=".data ++ B) := by
    simp [show "multipart/form-data; boundary=".data =
      "multipart/form-data".data ++ [';'] ++ " boundary=".data from by decide,
      List.append_assoc]
  unfold extractBoundary
  rw [hct]
  rw [splitOnSub_append [';'] _ _ (by simp)
    (no_prefix_inside _ _ _ (by decide) (by decide) (by decide))]
  rw [splitOnSub_of_not_contains _ _ (not_contains_of_not_mem ';' [] _ (by
    intro hmem
    rcases List.mem_append.mp hmem with h1 | h1
    · revert h1; decide
    · exact (hB.2 ';' h1).2.2.2.2.1 rfl))]
  rw [List.find?_cons_of_neg _ (by
    rw [show containsSub "boundary".data "multipart/form-data".data = false from by decide]
    simp)]
  rw [List.find?_cons_of_pos _ (by
    rw [containsSub_iff]
    refine ⟨1, ?_⟩
    rw [show (" boundary=".data ++ B).drop 1 = "boundary=".data ++ B from by
      simp [show (" boundary=".data : List Char) = ' ' :: "boundary=".data from by decide]]
    rw [List.isPrefixOf_iff_prefix]
    exact List.IsPrefix.trans (by decide) (List.prefix_append _ _))]
  simp only []
  rw [show (" boundary=".data : List Char) ++ B = " boundary".data ++ ['='] ++ B from by
    simp [show (" boundary=".data : List Char) = " boundary".data ++ ['='] from by decide]]
  rw [splitOnSub_append ['='] _ _ (by simp)
    (no_prefix_inside _ _ _ (by decide) (by decide) (by decide))]
  rw [splitOnSub_of_not_contains _ _ (not_contains_of_not_mem '=' [] B (fun hmem =>
    (hB.2 '=' hmem).2.2.2.2.2.1 rfl))]
  rw [show ([" boundary".data, B] : List (List Char)).get? 1 = some B from rfl]
  simp only []
  rw [pyStrip_no_ws B (tokenOK_no_ws B hB), stripQuotes_no_quote B (tokenOK_no_quote B hB)]

theorem parse_with_body_encode (B : List Char) (parts : List MPart)
    (headers : List (List Char × List Char))
    (hB : tokenOK B)
    (hct : headerGet headers "content-type".data =
      "multipart/form-data; boundary=".data ++ B)
    (hint : ∀ p ∈ parts, containsSub ([45, 45] ++ utf8Encode B) (partInterior p) = false) :
    parse_with_body headers (encodeMultipart B parts) =
      .ok ((parts.map partInterior).foldl formStep []) := by
  have hstart : startsWith "multipart/form-data".data
      ("multipart/form-data; boundary=".data ++ B) = true := by
    unfold startsWith
    rw [List.isPrefixOf_iff_prefix]
    exact List.IsPrefix.trans (by decide) (List.prefix_append _ _)
  unfold parse_with_body
  simp only []
  rw [hct]
  rw [if_neg (fun hc => hc hstart)]
  rw [extractBoundary_std B hB]
  simp only [bind, Except.bind, pure, Except.pure]
  rw [if_neg hB.1]
  rw [splitOnSub_encodeMultipart B parts hB hint]
  rw [foldl_formStep_segments parts]

/-- Claim C6: for every valid multipart body — well-formed
CRLF-terminated parts, the boundary present in the content-type header,
no part interior containing the boundary delimiter — that contains a
part named file with a filename, parse_multipart returns a field map
whose file entry is that part's content as raw bytes, byte-for-byte
equal to the bytes that were encoded into the body; and the same holds
when the body arrives base64-encoded with isBase64Encoded set. -/
theorem claim_C6 (boundary fn : List Char) (fileBytes : List Nat) (pre post : List MPart)
    (headers : List (List Char × List Char))
    (hB : tokenOK boundary) (hfn : tokenOK fn)
    (hct : headerGet headers "content-type".data =
      "multipart/form-data; boundary=".data ++ boundary)
    (hok : ∀ p ∈ pre ++ filePart fn fileBytes :: post, partOK boundary p)
    (hnames : ∀ p ∈ pre ++ post, p.name ≠ "file".data) :
    (∃ form, parse_multipart
        { body := BodyVal.bytes
            (encodeMultipart boundary (pre ++ filePart fn fileBytes :: post)),
          isBase64Encoded := false, headers := headers } = .ok form ∧
      pyGetLast form "file".data = some (FormVal.bytes fileBytes)) ∧
    (∃ form, parse_multipart
        { body := BodyVal.str (b64encode
            (encodeMultipart boundary (pre ++ filePart fn fileBytes :: post))),
          isBase64Encoded := true, headers := headers } = .ok form ∧
      pyGetLast form "file".data = some (FormVal.bytes fileBytes)) := by
  have hint : ∀ p ∈ pre ++ filePart fn fileBytes :: post,
      containsSub ([45, 45] ++ utf8Encode boundary) (partInterior p) = false :=
    fun p hp => (hok p hp).2.2.1
  have hwb := parse_with_body_encode boundary (pre ++ filePart fn fileBytes :: post)
    headers hB hct hint
  have hpost' : ∀ p ∈ post, tokenOK p.name ∧ optTokenOK p.filename ∧ p.name ≠ "file".data :=
    fun p hp => ⟨(hok p (by simp [hp])).1, (hok p (by simp [hp])).2.1,
      hnames p (by simp [hp])⟩
  have hfileok := hok (filePart fn fileBytes) (by simp)
  have hlookup : pyGetLast (((pre ++ filePart fn fileBytes :: post).map partInterior).foldl
      formStep []) "file".data = some (FormVal.bytes fileBytes) :=
    foldl_formStep_file pre post (filePart fn fileBytes) fn [] hpost'
      hfileok.1 hfileok.2.1 rfl rfl
  have hbytes : ∀ b ∈ encodeMultipart boundary (pre ++ filePart fn fileBytes :: post),
      b < 256 :=
    encodeMultipart_lt boundary _ (fun p hp => (hok p hp).2.2.2)
  constructor
  · refine ⟨_, ?_, hlookup⟩
    have hinner : parse_multipart_inner
        { body := BodyVal.bytes
            (encodeMultipart boundary (pre ++ filePart fn fileBytes :: post)),
          isBase64Encoded := false, headers := headers } =
        .ok (((pre ++ filePart fn fileBytes :: post).map partInterior).foldl formStep []) := by
      unfold parse_multipart_inner
      simp only [Bool.false_eq_true, if_false]
      simp only [bind, Except.bind, pure, Except.pure]
      exact hwb
    unfold parse_multipart
    rw [hinner]
  · refine ⟨_, ?_, hlookup⟩
    have hinner : parse_multipart_inner
        { body := BodyVal.str (b64encode
            (encodeMultipart boundary (pre ++ filePart fn fileBytes :: post))),
          isBase64Encoded := true, headers := headers } =
        .ok (((pre ++ filePart fn fileBytes :: post).map partInterior).foldl formStep []) := by
      unfold parse_multipart_inner
      simp only [if_true]
      rw [b64_roundtrip _ hbytes]
      simp only [bind, Except.bind, pure, Except.pure]
      exact hwb
    unfold parse_multipart
    rw [hinner]

/-- Witness for claim C6 at a concrete boundary, filename and binary
content (containing CRLF pairs, dashes and a zero byte). -/
theorem claim_C6_witness :
    (∃ form, parse_multipart
        { body := BodyVal.bytes (encodeMultipart "XbOuNd42".data
            ([] ++ filePart "a.pdf".data [1, 255, 13, 10, 13, 10, 45, 0, 77] :: [])),
          isBase64Encoded := false,
          headers :=
            [("Content-Type".data, "multipart/form-data; boundary=XbOuNd42".data)] } =
        .ok form ∧
      pyGetLast form "file".data =
        some (FormVal.bytes [1, 255, 13, 10, 13, 10, 45, 0, 77])) ∧
    (∃ form, parse_multipart
        { body := BodyVal.str (b64encode (encodeMultipart "XbOuNd42".data
            ([] ++ filePart "a.pdf".data [1, 255, 13, 10, 13, 10, 45, 0, 77] :: []))),
          isBase64Encoded := true,
          headers :=
            [("Content-Type".data, "multipart/form-data; boundary=XbOuNd42".data)] } =
        .ok form ∧
      pyGetLast form "file".data =
        some (FormVal.bytes [1, 255, 13, 10, 13, 10, 45, 0, 77])) :=
  claim_C6 "XbOuNd42".data "a.pdf".data [1, 255, 13, 10, 13, 10, 45, 0, 77] [] []
    [("Content-Type".data, "multipart/form-data; boundary=XbOuNd42".data)]
    (by decide) (by decide) (by decide) (by decide) (by decide)

end PLA
